import Mathlib

/-!
Cloud storage DML sink: the sink controller.

A shallow embedding of `cdc/sink/dmlsink/cloudstorage/cloud_storage_dml_sink.go`:
the ingest path `WriteEvents`, the constructor `NewDMLSink` with the supervisor
goroutine it starts, `Close` and `Dead`.

Conventions of the embedding.

* Go pointers that the code dereferences without a nil test (`txn`, `txn.Event`,
  `txn.Event.Table`) are values: the embedding covers the calls in which they are
  not nil.
* `uint64` values are natural numbers below `uint64Size`; `atomic.AddUint64` is
  addition modulo `uint64Size`.
* A channel is the list of the values sent on it, oldest first. A send on `msgCh`
  appends; that a send on a full buffer waits for an encoding worker to receive
  (back-pressure) is a matter of scheduling and leaves what is submitted, and in
  which order, unchanged.
* Invoking a callback appends the transaction whose callback it is to a log.
-/

namespace CloudStorage

/-! ## Data model -/

/-- Number of values of a Go `uint64`. -/
def uint64Size : Nat := 18446744073709551616

/-- Error values. `contextCanceled` is the sentinel `context.Canceled`, `new` is
`errors.New`, and `trace` is `errors.Trace` (any wrapper that keeps the cause). -/
inductive GoError where
  | contextCanceled : GoError
  | new (msg : String) : GoError
  | trace (inner : GoError) : GoError
  deriving DecidableEq, Repr

/-- The root of a chain of wrapped errors, as `errors.Cause` returns it. -/
def errorsCause : GoError → GoError
  | GoError.trace inner => errorsCause inner
  | e => e

/-- Modelled from the spec: the table-sink lifecycle states of package
`tablesink/state`, whose declaration is not among the sources; the spec lists
`sinking`, `stopping` and `stopped`. -/
inductive TableSinkState where
  | TableSinkSinking
  | TableSinkStopping
  | TableSinkStopped
  deriving DecidableEq, Repr

/-- Modelled from the spec: the table identity `model.TableName`, whose declaration is
not among the sources. -/
structure TableName where
  Schema : String
  Table : String
  TableID : Int
  deriving DecidableEq, Repr

/-- The part of `model.SingleTableTxn` that the sink controller reads. -/
structure SingleTableTxn where
  Table : TableName
  TableInfoVersion : Nat
  deriving DecidableEq, Repr

/-- A transaction with its callback and table-sink state
(`dmlsink.CallbackableEvent[*model.SingleTableTxn]`). `Callback` identifies the
closure; `SinkState` is what `GetTableSinkState` reads. -/
structure CallbackableEvent where
  Event : SingleTableTxn
  Callback : Nat
  SinkState : TableSinkState
  deriving DecidableEq, Repr

/-- Reads the table-sink state of a transaction. -/
def CallbackableEvent.GetTableSinkState (txn : CallbackableEvent) : TableSinkState :=
  txn.SinkState

/-- The pair `cloudstorage.VersionedTableName`. -/
structure VersionedTableName where
  TableNameWithPhysicTableID : TableName
  TableInfoVersion : Nat
  deriving DecidableEq, Repr

/-- An encoded message (`common.Message`), opaque to the sink controller. -/
structure Message where
  Value : List Nat
  deriving DecidableEq, Repr

/-- The unit of work of the pipeline. `encodedMsgs` is `none` for a nil slice. -/
structure eventFragment where
  event : CallbackableEvent
  versionedTable : VersionedTableName
  seqNumber : Nat
  encodedMsgs : Option (List Message)
  deriving DecidableEq, Repr

/-- The sink. `κ` is the type of the handles of the parts the sink owns (encoding
workers, defragmenter, writer, statistics), whose code is not among the sources.
`msgCh` holds the fragments sent, `msgChCap` is the capacity the channel was made
with, `cancel` is true when the field holds a function (then it is `wgCancel`), `wg`
is the counter of the wait group, `dead` counts the `close` operations executed on
the dead channel (the channel is closed when it is positive). -/
structure DMLSink (κ : Type) where
  msgCh : List eventFragment
  msgChCap : Nat
  encodingWorkers : List κ
  defragmenter : Option κ
  writer : Option κ
  statistics : Option κ
  lastSeqNum : Nat
  cancel : Bool
  wg : Nat
  dead : Nat
  isDead : Bool

/-! ## WriteEvents -/

/-- What a call of `WriteEvents` leaves behind: the error returned (`none` for nil),
the sink, and the transactions whose callback the call invoked, in order. -/
structure WriteResult (κ : Type) where
  err : Option GoError
  sink : DMLSink κ
  called : List CallbackableEvent

/-- The body of the loop of `WriteEvents` for one transaction. -/
def writeOne {κ : Type} (r : WriteResult κ) (txn : CallbackableEvent) : WriteResult κ :=
  if txn.GetTableSinkState ≠ TableSinkState.TableSinkSinking then
    { r with called := r.called ++ [txn] }
  else
    let tbl : VersionedTableName :=
      { TableNameWithPhysicTableID := txn.Event.Table
        TableInfoVersion := txn.Event.TableInfoVersion }
    let seq := (r.sink.lastSeqNum + 1) % uint64Size
    { r with sink :=
        { r.sink with
          lastSeqNum := seq
          msgCh := r.sink.msgCh ++
            [{ seqNumber := seq, versionedTable := tbl, event := txn, encodedMsgs := none }] } }

/-- The loop `for _, txn := range txns` of `WriteEvents`. -/
def writeLoop {κ : Type} (r : WriteResult κ) (txns : List CallbackableEvent) : WriteResult κ :=
  txns.foldl writeOne r

/-- The method `WriteEvents`. -/
def WriteEvents {κ : Type} (s : DMLSink κ) (txns : List CallbackableEvent) : WriteResult κ :=
  if s.isDead then
    { err := some (GoError.trace (GoError.new "dead dmlSink")), sink := s, called := [] }
  else
    writeLoop { err := none, sink := s, called := [] } txns

/-! ## NewDMLSink and the supervisor goroutine -/

/-- Capacity of the ingest channel. -/
def defaultChannelSize : Nat := 1024

/-- Number of encoding workers. -/
def defaultEncodingConcurrency : Nat := 8

/-- What `NewDMLSink` obtains from code that is not among the sources: the error
results of the configuration steps (`none` for nil), the encoder that the `i`-th call
of `encoderBuilder.Build` returns, the constructors of the parts, and the state of
the caller's context and of the error channel when the sink is built. -/
structure Deps (κ : Type) where
  cfgApply : Option GoError
  getExternalStorage : Option GoError
  getProtocol : Option GoError
  getEncoderConfig : Option GoError
  newEncoderBuilder : Option GoError
  build : Nat → Nat
  newEncodingWorker : Nat → Nat → κ
  newDefragmenter : κ
  newStatistics : κ
  newDMLWriter : κ
  ctxDone : Bool
  errChReady : Bool

/-- Where the goroutine started by `NewDMLSink` stands. `absent`: the sink has no such
goroutine; `run`: inside `s.run(wgCtx)`; `storeDead err`: `run` has returned `err` and
`s.isDead.Store(true)` is next; `closeDead`: `close(s.dead)` is next; `checkErr`: the
test of `err` is next; `select e`: at the `select` that reports `e`; `exit`: the
deferred `s.wg.Done()` is next; `finished`: the goroutine has ended. -/
inductive SupervisorPc where
  | absent : SupervisorPc
  | run : SupervisorPc
  | storeDead (err : Option GoError) : SupervisorPc
  | closeDead (err : Option GoError) : SupervisorPc
  | checkErr (err : Option GoError) : SupervisorPc
  | select (e : GoError) : SupervisorPc
  | exit : SupervisorPc
  | finished : SupervisorPc
  deriving DecidableEq, Repr

/-- The sink together with what surrounds it: whether `wgCtx` is done, whether a send
on `errCh` can proceed now (room in its buffer, or a receiver waiting), the errors the
goroutine has sent on `errCh`, the goroutine, the number of calls of `Close` that have
cancelled and not yet returned, and the log of the callbacks invoked. -/
structure System (κ : Type) where
  sink : DMLSink κ
  ctxDone : Bool
  errChReady : Bool
  errCh : List GoError
  supervisor : SupervisorPc
  closing : Nat
  callbacks : List CallbackableEvent

/-- The loop of `NewDMLSink` that creates the encoding workers: worker `i` gets the
encoder of the `i`-th call of `Build`. -/
def createWorkers {κ : Type} (d : Deps κ) : List κ :=
  (List.range defaultEncodingConcurrency).map (fun i => d.newEncodingWorker i (d.build i))

/-- The constructor `NewDMLSink`, up to its `return`: the goroutine has been started
and stands at `s.run(wgCtx)`. -/
def NewDMLSink {κ : Type} (d : Deps κ) : Except GoError (System κ) :=
  match d.cfgApply with
  | some err => Except.error err
  | none =>
  match d.getExternalStorage with
  | some err => Except.error err
  | none =>
  match d.getProtocol with
  | some err => Except.error (GoError.trace err)
  | none =>
  match d.getEncoderConfig with
  | some err => Except.error (GoError.trace err)
  | none =>
  match d.newEncoderBuilder with
  | some err => Except.error (GoError.trace err)
  | none =>
    Except.ok
      { sink :=
          { msgCh := []
            msgChCap := defaultChannelSize
            encodingWorkers := createWorkers d
            defragmenter := some d.newDefragmenter
            writer := some d.newDMLWriter
            statistics := some d.newStatistics
            lastSeqNum := 0
            cancel := true
            wg := 1
            dead := 0
            isDead := false }
        ctxDone := d.ctxDone
        errChReady := d.errChReady
        errCh := []
        supervisor := SupervisorPc.run
        closing := 0
        callbacks := [] }

/-- How the `select` of the goroutine ends. -/
inductive SelectResult where
  | blocked : SelectResult
  | abandoned : SelectResult
  | sent : SelectResult
  deriving DecidableEq, Repr

/-- The statement `select { case <-wgCtx.Done(): case errCh <- err: }`: it waits while
neither case can proceed, and when both can, `pick` stands for the choice Go makes. -/
def selectReport (ctxDone errChReady pick : Bool) : SelectResult :=
  match ctxDone, errChReady with
  | false, false => SelectResult.blocked
  | true, false => SelectResult.abandoned
  | false, true => SelectResult.sent
  | true, true => if pick then SelectResult.abandoned else SelectResult.sent

/-- The test `err != nil && errors.Cause(err) != context.Canceled`. -/
def shouldReport (err : Option GoError) : Bool :=
  match err with
  | none => false
  | some e => decide (errorsCause e ≠ GoError.contextCanceled)

/-- The method `Dead`: the dead channel, given by the number of times it was closed. -/
def Dead {κ : Type} (s : DMLSink κ) : Nat := s.dead

/-- The `close` methods of the parts, which are not among the sources. -/
structure Closers (κ : Type) where
  defragmenter : κ → κ
  encodingWorker : κ → κ
  writer : κ → κ
  statistics : κ → κ

/-- The part of `Close` after `s.wg.Wait()`: the defragmenter, every encoding worker,
the writer and the statistics are closed. -/
def closeParts {κ : Type} (cl : Closers κ) (s : DMLSink κ) : DMLSink κ :=
  { s with
    defragmenter := s.defragmenter.map cl.defragmenter
    encodingWorkers := s.encodingWorkers.map cl.encodingWorker
    writer := s.writer.map cl.writer
    statistics := s.statistics.map cl.statistics }

/-- What can happen next. `runReturns err`: `s.run(wgCtx)` returns `err` (the tasks it
waits for are not among the sources); `supervisor pick`: the goroutine executes its
next statement; `writeEvents`: a call of `WriteEvents`; `closeCancel`: a call of
`Close` up to `s.wg.Wait()`; `closeReturn`: the wait of a call of `Close` ends and the
call runs to its end; `dead`: a call of `Dead`; `ctxCancel`: the caller's context is
cancelled; `errChEnv ready`: the error channel becomes ready, or stops being. -/
inductive Action where
  | runReturns (err : Option GoError) : Action
  | supervisor (pick : Bool) : Action
  | writeEvents (txns : List CallbackableEvent) : Action
  | closeCancel : Action
  | closeReturn : Action
  | dead : Action
  | ctxCancel : Action
  | errChEnv (ready : Bool) : Action
  deriving DecidableEq, Repr

/-- One statement of the goroutine; `none` when it cannot proceed (it waits inside
`run` or at the `select`, or has ended) or when `s.wg.Done()` would make the counter
negative. -/
def supervisorStep {κ : Type} (σ : System κ) (pick : Bool) : Option (System κ) :=
  match σ.supervisor with
  | SupervisorPc.storeDead err =>
    some { σ with sink := { σ.sink with isDead := true }, supervisor := SupervisorPc.closeDead err }
  | SupervisorPc.closeDead err =>
    some { σ with sink := { σ.sink with dead := σ.sink.dead + 1 },
                  supervisor := SupervisorPc.checkErr err }
  | SupervisorPc.checkErr err =>
    match err with
    | some e =>
      if shouldReport (some e) then some { σ with supervisor := SupervisorPc.select e }
      else some { σ with supervisor := SupervisorPc.exit }
    | none => some { σ with supervisor := SupervisorPc.exit }
  | SupervisorPc.select e =>
    match selectReport σ.ctxDone σ.errChReady pick with
    | SelectResult.blocked => none
    | SelectResult.abandoned => some { σ with supervisor := SupervisorPc.exit }
    | SelectResult.sent =>
      some { σ with errCh := σ.errCh ++ [e], supervisor := SupervisorPc.exit }
  | SupervisorPc.exit =>
    if σ.sink.wg = 0 then none
    else some { σ with sink := { σ.sink with wg := σ.sink.wg - 1 },
                       supervisor := SupervisorPc.finished }
  | _ => none

/-- One action on the system; `none` when the action cannot take place in this state. -/
def step {κ : Type} (cl : Closers κ) (σ : System κ) : Action → Option (System κ)
  | Action.runReturns err =>
    if σ.supervisor = SupervisorPc.run then
      some { σ with supervisor := SupervisorPc.storeDead err }
    else none
  | Action.supervisor pick => supervisorStep σ pick
  | Action.writeEvents txns =>
    let r := WriteEvents σ.sink txns
    some { σ with sink := r.sink, callbacks := σ.callbacks ++ r.called }
  | Action.closeCancel =>
    some { σ with ctxDone := σ.ctxDone || σ.sink.cancel, closing := σ.closing + 1 }
  | Action.closeReturn =>
    if 0 < σ.closing ∧ σ.sink.wg = 0 then
      some { σ with sink := closeParts cl σ.sink, closing := σ.closing - 1 }
    else none
  | Action.dead => some σ
  | Action.ctxCancel => some { σ with ctxDone := true }
  | Action.errChEnv ready => some { σ with errChReady := ready }

/-- A sequence of actions, from the left; `none` as soon as one cannot take place. -/
def exec {κ : Type} (cl : Closers κ) (σ : System κ) : List Action → Option (System κ)
  | [] => some σ
  | a :: as =>
    match step cl σ a with
    | some σ' => exec cl σ' as
    | none => none

/-- The states a sink built by `NewDMLSink` can be in. -/
def Reachable {κ : Type} (cl : Closers κ) (d : Deps κ) (σ : System κ) : Prop :=
  ∃ σ₀ acts, NewDMLSink d = Except.ok σ₀ ∧ exec cl σ₀ acts = some σ

/-! ## Definitions used to state the properties -/

/-- The test of `WriteEvents` on a transaction: whether it is submitted. -/
def isSinking (txn : CallbackableEvent) : Bool :=
  decide (txn.GetTableSinkState = TableSinkState.TableSinkSinking)

/-- The fragment `WriteEvents` builds for a transaction and a sequence number. -/
def fragmentOf (seq : Nat) (txn : CallbackableEvent) : eventFragment :=
  { seqNumber := seq
    versionedTable :=
      { TableNameWithPhysicTableID := txn.Event.Table
        TableInfoVersion := txn.Event.TableInfoVersion }
    event := txn
    encodedMsgs := none }

/-- The fragments for a list of submitted transactions when the counter stands at `n`. -/
def fragmentsFrom (n : Nat) : List CallbackableEvent → List eventFragment
  | [] => []
  | t :: ts => fragmentOf ((n + 1) % uint64Size) t :: fragmentsFrom ((n + 1) % uint64Size) ts

/-- The counter after the submission of a list of transactions. -/
def lastSeqAfter (n : Nat) : List CallbackableEvent → Nat
  | [] => n
  | _ :: ts => lastSeqAfter ((n + 1) % uint64Size) ts

/-- The fragments a call of `WriteEvents` puts on `msgCh`. -/
def submitted {κ : Type} (s : DMLSink κ) (txns : List CallbackableEvent) : List eventFragment :=
  (WriteEvents s txns).sink.msgCh.drop s.msgCh.length

/-- What holds of the sink and of the goroutine of a sink built by `NewDMLSink` after
the actions `hist`: the flag, the dead channel, the wait group and the errors sent on
`errCh` are determined by where the goroutine stands. -/
def SupervisorInv {κ : Type} (hist : List Action) (σ : System κ) : Prop :=
  σ.sink.cancel = true ∧
  match σ.supervisor with
  | SupervisorPc.absent => False
  | SupervisorPc.run =>
    σ.sink.isDead = false ∧ σ.sink.dead = 0 ∧ σ.sink.wg = 1 ∧ σ.errCh = []
  | SupervisorPc.storeDead err =>
    σ.sink.isDead = false ∧ σ.sink.dead = 0 ∧ σ.sink.wg = 1 ∧ σ.errCh = [] ∧
      Action.runReturns err ∈ hist
  | SupervisorPc.closeDead err =>
    σ.sink.isDead = true ∧ σ.sink.dead = 0 ∧ σ.sink.wg = 1 ∧ σ.errCh = [] ∧
      Action.runReturns err ∈ hist
  | SupervisorPc.checkErr err =>
    σ.sink.isDead = true ∧ σ.sink.dead = 1 ∧ σ.sink.wg = 1 ∧ σ.errCh = [] ∧
      Action.runReturns err ∈ hist
  | SupervisorPc.select e =>
    σ.sink.isDead = true ∧ σ.sink.dead = 1 ∧ σ.sink.wg = 1 ∧ σ.errCh = [] ∧
      Action.runReturns (some e) ∈ hist ∧ errorsCause e ≠ GoError.contextCanceled
  | SupervisorPc.exit =>
    σ.sink.isDead = true ∧ σ.sink.dead = 1 ∧ σ.sink.wg = 1 ∧
      (σ.errCh = [] ∨ ∃ e, σ.errCh = [e] ∧ Action.runReturns (some e) ∈ hist ∧
        errorsCause e ≠ GoError.contextCanceled)
  | SupervisorPc.finished =>
    σ.sink.isDead = true ∧ σ.sink.dead = 1 ∧ σ.sink.wg = 0 ∧
      (σ.errCh = [] ∨ ∃ e, σ.errCh = [e] ∧ Action.runReturns (some e) ∈ hist ∧
        errorsCause e ≠ GoError.contextCanceled)

/-- How far the goroutine has come. -/
def SupervisorPc.rank : SupervisorPc → Nat
  | SupervisorPc.absent => 0
  | SupervisorPc.run => 1
  | SupervisorPc.storeDead _ => 2
  | SupervisorPc.closeDead _ => 3
  | SupervisorPc.checkErr _ => 4
  | SupervisorPc.select _ => 5
  | SupervisorPc.exit => 6
  | SupervisorPc.finished => 7

/-- The sequence numbers on `msgCh` count the fragments modulo `2^64`, and the counter
is the number of fragments modulo `2^64`. -/
def SeqInv {κ : Type} (s : DMLSink κ) : Prop :=
  s.msgCh.map eventFragment.seqNumber =
      (List.range s.msgCh.length).map (fun i => (i + 1) % uint64Size) ∧
    s.lastSeqNum = s.msgCh.length % uint64Size

/-! ## Concrete values on which the properties are exercised -/

/-- A table. -/
def exampleTable : TableName := { Schema := "db", Table := "t", TableID := 1 }

/-- A transaction of a table that is sinking. -/
def sinkingTxn (cb : Nat) : CallbackableEvent :=
  { Event := { Table := exampleTable, TableInfoVersion := 1 }
    Callback := cb
    SinkState := TableSinkState.TableSinkSinking }

/-- A transaction of a table that is stopping. -/
def stoppingTxn (cb : Nat) : CallbackableEvent :=
  { Event := { Table := exampleTable, TableInfoVersion := 1 }
    Callback := cb
    SinkState := TableSinkState.TableSinkStopping }

/-- A running sink whose counter stands at `n`. -/
def runningSink (n : Nat) : DMLSink Unit :=
  { msgCh := []
    msgChCap := defaultChannelSize
    encodingWorkers := []
    defragmenter := none
    writer := none
    statistics := none
    lastSeqNum := n
    cancel := true
    wg := 1
    dead := 0
    isDead := false }

/-- Dependencies under which every configuration step succeeds; the caller's context
is live and the error channel cannot accept a send. -/
def exampleDeps : Deps Unit :=
  { cfgApply := none
    getExternalStorage := none
    getProtocol := none
    getEncoderConfig := none
    newEncoderBuilder := none
    build := fun i => i
    newEncodingWorker := fun _ _ => ()
    newDefragmenter := ()
    newStatistics := ()
    newDMLWriter := ()
    ctxDone := false
    errChReady := false }

/-- The `close` methods on parts without state. -/
def exampleClosers : Closers Unit :=
  { defragmenter := fun u => u
    encodingWorker := fun u => u
    writer := fun u => u
    statistics := fun u => u }

/-- The system that `NewDMLSink exampleDeps` returns, in the state given by the
counter, the channel, the flag, the dead channel, the wait group, the context, the
errors sent, the goroutine, the pending calls of `Close` and the callback log. -/
def exampleSystem (lastSeqNum : Nat) (msgCh : List eventFragment) (isDead : Bool)
    (dead wg : Nat) (ctxDone : Bool) (errCh : List GoError) (pc : SupervisorPc)
    (closing : Nat) (callbacks : List CallbackableEvent) : System Unit :=
  { sink :=
      { msgCh := msgCh
        msgChCap := defaultChannelSize
        encodingWorkers := [(), (), (), (), (), (), (), ()]
        defragmenter := some ()
        writer := some ()
        statistics := some ()
        lastSeqNum := lastSeqNum
        cancel := true
        wg := wg
        dead := dead
        isDead := isDead }
    ctxDone := ctxDone
    errChReady := false
    errCh := errCh
    supervisor := pc
    closing := closing
    callbacks := callbacks }

/-- The state right after `NewDMLSink exampleDeps`. -/
def exampleInit : System Unit :=
  exampleSystem 0 [] false 0 1 false [] SupervisorPc.run 0 []

/-- An error that is not a cancellation. -/
def fatalError : GoError := GoError.trace (GoError.new "storage failure")


/-! ## run -/

/-- A task that `run` starts in its error group: the DML writer (the field `writer`
as it stands) or an encoding worker. -/
inductive RunTask (κ : Type) where
  | writer (w : Option κ) : RunTask κ
  | worker (w : κ) : RunTask κ

/-- The loop `for i := 0; i < defaultEncodingConcurrency; i++` of `run`, at index `i`
with `n` iterations left: the tasks it starts, or `none` when `s.encodingWorkers[i]`
is out of range. -/
def runLoop {κ : Type} (s : DMLSink κ) : Nat → Nat → Option (List (RunTask κ))
  | _, 0 => some []
  | i, n + 1 =>
    match s.encodingWorkers[i]? with
    | none => none
    | some w => (runLoop s (i + 1) n).map (fun ts => RunTask.worker w :: ts)

/-- The method `run`: the tasks it starts, in order, or `none` when an index is out of
range. What `run` returns is the result of `eg.Wait()`, which the tasks decide; it
enters the system as the action `runReturns`. -/
def DMLSink.run {κ : Type} (s : DMLSink κ) : Option (List (RunTask κ)) :=
  (runLoop s 0 defaultEncodingConcurrency).map (fun ts => RunTask.writer s.writer :: ts)

/-! ## WriteEvents while the sink dies -/

/-- A call of `WriteEvents` during which the goroutine stores `isDead` after the loop
has handled the transactions `before` and before it handles `after`: the flag is
tested at entry only. -/
def WriteEventsDying {κ : Type} (s : DMLSink κ) (before after : List CallbackableEvent) :
    WriteResult κ :=
  if s.isDead then
    { err := some (GoError.trace (GoError.new "dead dmlSink")), sink := s, called := [] }
  else
    let r := writeLoop { err := none, sink := s, called := [] } before
    writeLoop { r with sink := { r.sink with isDead := true } } after

/-! ## The defragmenter -/

/-- Modelled from the spec: the defragmenter (section 4.3), whose file is not among the
sources. It accepts encoded fragments in any order and sends them on the ordered
output channel: `nextExpectedSeq` is the smallest sequence number not yet emitted,
`pending` holds the fragments that arrived early, `orderedOut` the fragments sent on
the channel, oldest first. The spec keeps this state for each table and takes the
next sequence number of a table from an index of the table; the fragments of the
source, those of `WriteEvents`, carry `seqNumber` and no such index, and their
sequence numbers start from one and are consecutive over all tables, so here the
sequence number is the key and one expected number serves all tables. -/
structure defragmenter where
  nextExpectedSeq : Nat
  pending : List eventFragment
  orderedOut : List eventFragment

/-- Modelled from the spec: a new defragmenter; the first sequence number expected is
one, nothing is pending and nothing was sent. -/
def newDefragmenter : defragmenter :=
  { nextExpectedSeq := 1, pending := [], orderedOut := [] }

/-- Modelled from the spec: "drain consecutive entries from pending, advancing
next_expected_seq". The first argument bounds the number of entries drained; the
number of pending entries is enough. -/
def drainPending : Nat → defragmenter → defragmenter
  | 0, d => d
  | fuel + 1, d =>
    match d.pending.find? (fun f => f.seqNumber == d.nextExpectedSeq) with
    | none => d
    | some f =>
      drainPending fuel
        { nextExpectedSeq := d.nextExpectedSeq + 1
          pending := d.pending.filter (fun g => g.seqNumber != d.nextExpectedSeq)
          orderedOut := d.orderedOut ++ [f] }

/-- Modelled from the spec: an encoding worker submits an encoded fragment. "If
fragment.seq == next_expected_seq, emit it immediately and then drain consecutive
entries from pending, advancing next_expected_seq. Otherwise insert into pending." -/
def defragmenter.submit (d : defragmenter) (f : eventFragment) : defragmenter :=
  if f.seqNumber = d.nextExpectedSeq then
    drainPending d.pending.length
      { d with nextExpectedSeq := d.nextExpectedSeq + 1, orderedOut := d.orderedOut ++ [f] }
  else
    { d with pending := d.pending ++ [f] }

/-- Modelled from the spec: what an encoding worker makes of a fragment (section 4.2):
it sets the encoded messages, here `enc f`, and leaves the rest as it is. -/
def encodeFragment (enc : eventFragment → List Message) (f : eventFragment) : eventFragment :=
  { f with encodedMsgs := some (enc f) }

/-- What a new defragmenter sends on the ordered output channel for a sequence of
submissions. -/
def defragment (subs : List eventFragment) : List eventFragment :=
  (subs.foldl defragmenter.submit newDefragmenter).orderedOut

/-- The fragments of a list that belong to a versioned table. -/
def ofTable (tbl : VersionedTableName) (l : List eventFragment) : List eventFragment :=
  l.filter (fun f => decide (f.versionedTable = tbl))

/-- Invariant of the defragmenter between submissions, for the fragments `xs` in ingest
order and the submissions `P` made so far: what was sent is the start of `xs` up to the
sequence number expected next, that number has not been submitted, and above it the
pending fragments are the submissions. -/
def DefragInv (xs P : List eventFragment) (d : defragmenter) : Prop :=
  d.orderedOut = xs.take (d.nextExpectedSeq - 1) ∧ 1 ≤ d.nextExpectedSeq ∧
  (∀ f ∈ P, f.seqNumber ≠ d.nextExpectedSeq) ∧
  ∀ f, d.nextExpectedSeq < f.seqNumber → (f ∈ d.pending ↔ f ∈ P)

/-- Invariant of the defragmenter while it drains: as `DefragInv`, except that the
sequence number expected next may be pending. -/
def DrainInv (xs P : List eventFragment) (d : defragmenter) : Prop :=
  d.orderedOut = xs.take (d.nextExpectedSeq - 1) ∧ 1 ≤ d.nextExpectedSeq ∧
  ∀ f, d.nextExpectedSeq ≤ f.seqNumber → (f ∈ d.pending ↔ f ∈ P)

/-- A second table. -/
def otherTable : TableName := { Schema := "db", Table := "u", TableID := 2 }

/-- A transaction of the second table, sinking. -/
def otherTxn (cb : Nat) : CallbackableEvent :=
  { Event := { Table := otherTable, TableInfoVersion := 1 }
    Callback := cb
    SinkState := TableSinkState.TableSinkSinking }

/-- An encoder for the examples: one message holding the sequence number. -/
def exampleEncoder (f : eventFragment) : List Message := [{ Value := [f.seqNumber] }]

end CloudStorage

/-!
Checkpoint agent.

A shallow embedding of `engine/jobmaster/dm/checkpoint/agent.go`: `Create` and
`IsFresh` with the helpers they call. The database is an environment that answers
each operation; the operations performed are recorded in a log, oldest first. Log
calls of the logger are left out.
-/

namespace Checkpoint

open CloudStorage (GoError)

/-! ## Data model -/

/-- The constants of packages that are not among the sources and with which the agent
compares its arguments: the worker types of `framework` and the task modes of
`dmconfig`. -/
structure Consts where
  WorkerDMDump : Int
  WorkerDMLoad : Int
  ModeFull : String
  ModeIncrement : String

/-- The part of an upstream configuration the agent reads. -/
structure UpstreamCfg where
  SourceID : String
  deriving DecidableEq, Repr

/-- The part of `config.JobCfg` the agent reads. `config.TaskCfg` converts to it without
change, so one type stands for both. -/
structure JobCfg where
  Name : String
  MetaSchema : String
  TaskMode : String
  TargetDB : String
  Upstreams : List UpstreamCfg
  deriving DecidableEq, Repr

/-- The part of `metadata.Task` the agent reads. -/
structure Task where
  Cfg : JobCfg
  deriving DecidableEq, Repr

/-- The name functions of `cputil`, which are not among the sources. -/
inductive TableKind where
  | LightningCheckpoint
  | SyncerCheckpoint
  | SyncerShardMeta
  | SyncerOnlineDDL
  deriving DecidableEq, Repr

/-- A table name built by `dbutil.TableName` from a schema and the `cputil` name of a
task. -/
structure TableRef where
  schema : String
  kind : TableKind
  task : String
  deriving DecidableEq, Repr

/-- The function `loadTableName`. -/
def loadTableName (cfg : JobCfg) : TableRef :=
  { schema := cfg.MetaSchema, kind := TableKind.LightningCheckpoint, task := cfg.Name }

/-- The function `syncTableName`. -/
def syncTableName (cfg : JobCfg) : TableRef :=
  { schema := cfg.MetaSchema, kind := TableKind.SyncerCheckpoint, task := cfg.Name }

/-- The statements `Create` executes: `CREATE DATABASE IF NOT EXISTS` for the meta
schema, and the formats `loadCheckpointTable` and `syncCheckpointTable` for a table. -/
inductive Statement where
  | createDatabase (schema : String) : Statement
  | createLoadCheckpointTable (table : TableRef) : Statement
  | createSyncCheckpointTable (table : TableRef) : Statement
  deriving DecidableEq, Repr

/-- The queries `IsFresh` runs: the status of a task and source in the load checkpoint
table, and the global checkpoint of a source in the sync checkpoint table. -/
inductive Query where
  | loadStatus (table : TableRef) (taskName sourceName : String) : Query
  | syncGlobal (table : TableRef) (id : String) : Query
  deriving DecidableEq, Repr

/-- An operation on the database. -/
inductive DBOp where
  | apply (target : String) : DBOp
  | exec (stmt : Statement) : DBOp
  | queryRow (q : Query) : DBOp
  | close : DBOp
  deriving DecidableEq, Repr

/-- What `QueryRowContext(...).Scan(&status)` yields: a row with the value scanned, the
sentinel `sql.ErrNoRows`, or another error. -/
inductive ScanResult where
  | row (status : String) : ScanResult
  | errNoRows : ScanResult
  | failed (err : GoError) : ScanResult
  deriving DecidableEq, Repr

/-- The database: the error of `conn.DefaultDBProvider.Apply` for a target (`none` when
a connection is returned), and the answer to a statement or a query given the
operations performed before it. -/
structure DBEnv where
  apply : String → Option GoError
  exec : List DBOp → Statement → Option GoError
  queryRow : List DBOp → Query → ScanResult

/-! ## Create -/

/-- The function `createMetaDatabase`: the error of the statement and the log. -/
def createMetaDatabase (env : DBEnv) (ops : List DBOp) (cfg : JobCfg) :
    Option GoError × List DBOp :=
  (env.exec ops (Statement.createDatabase cfg.MetaSchema),
    ops ++ [DBOp.exec (Statement.createDatabase cfg.MetaSchema)])

/-- The function `createLoadCheckpointTable`. -/
def createLoadCheckpointTable (env : DBEnv) (ops : List DBOp) (cfg : JobCfg) :
    Option GoError × List DBOp :=
  (env.exec ops (Statement.createLoadCheckpointTable (loadTableName cfg)),
    ops ++ [DBOp.exec (Statement.createLoadCheckpointTable (loadTableName cfg))])

/-- The function `createSyncCheckpointTable`. -/
def createSyncCheckpointTable (env : DBEnv) (ops : List DBOp) (cfg : JobCfg) :
    Option GoError × List DBOp :=
  (env.exec ops (Statement.createSyncCheckpointTable (syncTableName cfg)),
    ops ++ [DBOp.exec (Statement.createSyncCheckpointTable (syncTableName cfg))])

/-- What `Create` leaves behind: the error returned (`none` for nil) and the log. -/
structure CreateResult where
  err : Option GoError
  ops : List DBOp
  deriving DecidableEq, Repr

/-- The method `Create`. The deferred `db.Close()` runs at every return that follows a
successful `Apply`. -/
def Create (k : Consts) (env : DBEnv) (cfg : JobCfg) : CreateResult :=
  match env.apply cfg.TargetDB with
  | some err => { err := some err, ops := [DBOp.apply cfg.TargetDB] }
  | none =>
    match createMetaDatabase env [DBOp.apply cfg.TargetDB] cfg with
    | (some err, ops₁) => { err := some err, ops := ops₁ ++ [DBOp.close] }
    | (none, ops₁) =>
      match (if cfg.TaskMode ≠ k.ModeIncrement then createLoadCheckpointTable env ops₁ cfg
             else (none, ops₁)) with
      | (some err, ops₂) => { err := some err, ops := ops₂ ++ [DBOp.close] }
      | (none, ops₂) =>
        match (if cfg.TaskMode ≠ k.ModeFull then createSyncCheckpointTable env ops₂ cfg
               else (none, ops₂)) with
        | (some err, ops₃) => { err := some err, ops := ops₃ ++ [DBOp.close] }
        | (none, ops₃) => { err := none, ops := ops₃ ++ [DBOp.close] }

/-! ## IsFresh -/

/-- What `IsFresh` and its helpers return, with the log. -/
structure FreshResult where
  fresh : Bool
  err : Option GoError
  ops : List DBOp
  deriving DecidableEq, Repr

/-- The function `isLoadFresh`; `none` when `taskCfg.Upstreams[0]` is out of range. -/
def isLoadFresh (env : DBEnv) (ops : List DBOp) (taskCfg : JobCfg) : Option FreshResult :=
  match taskCfg.Upstreams with
  | [] => none
  | u :: _ =>
    let q := Query.loadStatus (loadTableName taskCfg) taskCfg.Name u.SourceID
    match env.queryRow ops q with
    | ScanResult.row status =>
      some { fresh := decide (status = "init"), err := none, ops := ops ++ [DBOp.queryRow q] }
    | ScanResult.errNoRows =>
      some { fresh := true, err := none, ops := ops ++ [DBOp.queryRow q] }
    | ScanResult.failed err =>
      some { fresh := false, err := some err, ops := ops ++ [DBOp.queryRow q] }

/-- The function `isSyncFresh`; `none` when `taskCfg.Upstreams[0]` is out of range. -/
def isSyncFresh (env : DBEnv) (ops : List DBOp) (taskCfg : JobCfg) : Option FreshResult :=
  match taskCfg.Upstreams with
  | [] => none
  | u :: _ =>
    let q := Query.syncGlobal (syncTableName taskCfg) u.SourceID
    match env.queryRow ops q with
    | ScanResult.row _ =>
      some { fresh := false, err := none, ops := ops ++ [DBOp.queryRow q] }
    | ScanResult.errNoRows =>
      some { fresh := true, err := none, ops := ops ++ [DBOp.queryRow q] }
    | ScanResult.failed err =>
      some { fresh := false, err := some err, ops := ops ++ [DBOp.queryRow q] }

/-- The deferred `db.Close()` at the return of `IsFresh`. -/
def closeAfter (r : FreshResult) : FreshResult :=
  { r with ops := r.ops ++ [DBOp.close] }

/-- The method `IsFresh`. -/
def IsFresh (k : Consts) (env : DBEnv) (workerType : Int) (task : Task) : Option FreshResult :=
  if workerType = k.WorkerDMDump then
    some { fresh := true, err := none, ops := [] }
  else
    match env.apply task.Cfg.TargetDB with
    | some err => some { fresh := false, err := some err, ops := [DBOp.apply task.Cfg.TargetDB] }
    | none =>
      if workerType = k.WorkerDMLoad then
        (isLoadFresh env [DBOp.apply task.Cfg.TargetDB] task.Cfg).map closeAfter
      else
        (isSyncFresh env [DBOp.apply task.Cfg.TargetDB] task.Cfg).map closeAfter

/-! ## Definitions used to state the properties -/

/-- The statements of `Create` in their order: the meta database, the load checkpoint
table unless the mode is `ModeIncrement`, the sync checkpoint table unless the mode is
`ModeFull`. -/
def plannedStatements (k : Consts) (cfg : JobCfg) : List Statement :=
  [Statement.createDatabase cfg.MetaSchema] ++
  (if cfg.TaskMode ≠ k.ModeIncrement then
    [Statement.createLoadCheckpointTable (loadTableName cfg)] else []) ++
  (if cfg.TaskMode ≠ k.ModeFull then
    [Statement.createSyncCheckpointTable (syncTableName cfg)] else [])

/-- Executes statements in order after the log `ops` and stops at the first that
fails: the error, if any, and the log. -/
def execUntilError (env : DBEnv) : List DBOp → List Statement → Option GoError × List DBOp
  | ops, [] => (none, ops)
  | ops, s :: rest =>
    match env.exec ops s with
    | some err => (some err, ops ++ [DBOp.exec s])
    | none => execUntilError env (ops ++ [DBOp.exec s]) rest

/-- The errors of the steps of a log that follows the log `before`, in order: for
`Apply` and for every statement the answer of the database; queries and `Close` are
not steps. -/
def stepErrors (env : DBEnv) : List DBOp → List DBOp → List (Option GoError)
  | _, [] => []
  | before, DBOp.apply t :: rest => env.apply t :: stepErrors env (before ++ [DBOp.apply t]) rest
  | before, DBOp.exec s :: rest =>
    env.exec before s :: stepErrors env (before ++ [DBOp.exec s]) rest
  | before, op :: rest => stepErrors env (before ++ [op]) rest

/-- The statements executed in a log. -/
def executedStatements : List DBOp → List Statement
  | [] => []
  | DBOp.exec s :: rest => s :: executedStatements rest
  | _ :: rest => executedStatements rest

/-! ## Concrete values on which the properties are exercised -/

/-- Constants. -/
def exampleConsts : Consts :=
  { WorkerDMDump := 1, WorkerDMLoad := 2, ModeFull := "full", ModeIncrement := "incremental" }

/-- A job in mode `all` with one upstream. -/
def exampleCfg : JobCfg :=
  { Name := "job", MetaSchema := "meta", TaskMode := "all", TargetDB := "target",
    Upstreams := [{ SourceID := "mysql-01" }] }

/-- A database that accepts everything except the creation of the load checkpoint table,
and has no rows. -/
def exampleEnv : DBEnv :=
  { apply := fun _ => none
    exec := fun _ s =>
      match s with
      | Statement.createLoadCheckpointTable _ => some (GoError.new "denied")
      | _ => none
    queryRow := fun _ _ => ScanResult.errNoRows }

end Checkpoint

namespace CloudStorage

/-! ## The loop of WriteEvents -/

theorem writeLoop_nil {κ : Type} (r : WriteResult κ) : writeLoop r [] = r := rfl

theorem writeLoop_cons {κ : Type} (r : WriteResult κ) (t : CallbackableEvent)
    (ts : List CallbackableEvent) : writeLoop r (t :: ts) = writeLoop (writeOne r t) ts := rfl

theorem writeOne_sinking {κ : Type} (r : WriteResult κ) (t : CallbackableEvent)
    (h : isSinking t = true) :
    writeOne r t = { r with sink := { r.sink with
        lastSeqNum := (r.sink.lastSeqNum + 1) % uint64Size
        msgCh := r.sink.msgCh ++ [fragmentOf ((r.sink.lastSeqNum + 1) % uint64Size) t] } } := by
  have h' : t.GetTableSinkState = TableSinkState.TableSinkSinking := by
    simpa [isSinking] using h
  simp [writeOne, h', fragmentOf]

theorem writeOne_skipped {κ : Type} (r : WriteResult κ) (t : CallbackableEvent)
    (h : isSinking t = false) :
    writeOne r t = { r with called := r.called ++ [t] } := by
  have h' : t.GetTableSinkState ≠ TableSinkState.TableSinkSinking := by
    simpa [isSinking] using h
  simp [writeOne, h']

theorem writeLoop_spec {κ : Type} (txns : List CallbackableEvent) (r : WriteResult κ) :
    writeLoop r txns =
      { err := r.err
        called := r.called ++ txns.filter (fun t => !isSinking t)
        sink := { r.sink with
          lastSeqNum := lastSeqAfter r.sink.lastSeqNum (txns.filter isSinking)
          msgCh := r.sink.msgCh ++ fragmentsFrom r.sink.lastSeqNum (txns.filter isSinking) } } := by
  induction txns generalizing r with
  | nil => simp [writeLoop_nil, fragmentsFrom, lastSeqAfter]
  | cons t ts ih =>
    rw [writeLoop_cons, ih]
    cases h : isSinking t
    · rw [writeOne_skipped r t h]
      simp [h]
    · rw [writeOne_sinking r t h]
      simp [h, fragmentsFrom, lastSeqAfter]

theorem WriteEvents_dead {κ : Type} (s : DMLSink κ) (txns : List CallbackableEvent)
    (h : s.isDead = true) :
    WriteEvents s txns =
      { err := some (GoError.trace (GoError.new "dead dmlSink")), sink := s, called := [] } := by
  simp [WriteEvents, h]

theorem WriteEvents_alive {κ : Type} (s : DMLSink κ) (txns : List CallbackableEvent)
    (h : s.isDead = false) :
    WriteEvents s txns =
      { err := none
        called := txns.filter (fun t => !isSinking t)
        sink := { s with
          lastSeqNum := lastSeqAfter s.lastSeqNum (txns.filter isSinking)
          msgCh := s.msgCh ++ fragmentsFrom s.lastSeqNum (txns.filter isSinking) } } := by
  simp [WriteEvents, h, writeLoop_spec]

theorem submitted_alive {κ : Type} (s : DMLSink κ) (txns : List CallbackableEvent)
    (h : s.isDead = false) :
    submitted s txns = fragmentsFrom s.lastSeqNum (txns.filter isSinking) := by
  simp [submitted, WriteEvents_alive s txns h]

theorem submitted_dead {κ : Type} (s : DMLSink κ) (txns : List CallbackableEvent)
    (h : s.isDead = true) : submitted s txns = [] := by
  simp [submitted, WriteEvents_dead s txns h]

theorem msgCh_eq_append_submitted {κ : Type} (s : DMLSink κ) (txns : List CallbackableEvent) :
    (WriteEvents s txns).sink.msgCh = s.msgCh ++ submitted s txns := by
  cases h : s.isDead
  · simp [submitted, WriteEvents_alive s txns h]
  · simp [submitted, WriteEvents_dead s txns h]

theorem fragmentsFrom_length (l : List CallbackableEvent) (n : Nat) :
    (fragmentsFrom n l).length = l.length := by
  induction l generalizing n with
  | nil => rfl
  | cons t ts ih => simp [fragmentsFrom, ih]

theorem succ_mod_add (n i : Nat) :
    ((n + 1) % uint64Size + i + 1) % uint64Size = (n + (i + 1) + 1) % uint64Size := by
  unfold uint64Size
  omega

theorem fragmentsFrom_getElem? (l : List CallbackableEvent) (n i : Nat) :
    (fragmentsFrom n l)[i]? = (l[i]?).map (fragmentOf ((n + i + 1) % uint64Size)) := by
  induction l generalizing n i with
  | nil => simp [fragmentsFrom]
  | cons t ts ih =>
    cases i with
    | zero => simp [fragmentsFrom]
    | succ j =>
      simp only [fragmentsFrom, List.getElem?_cons_succ, ih]
      rw [succ_mod_add]

theorem fragmentsFrom_event (l : List CallbackableEvent) (n : Nat) :
    (fragmentsFrom n l).map eventFragment.event = l := by
  induction l generalizing n with
  | nil => rfl
  | cons t ts ih => simp [fragmentsFrom, fragmentOf, ih]

theorem fragmentsFrom_seq (l : List CallbackableEvent) (n : Nat) :
    (fragmentsFrom n l).map eventFragment.seqNumber =
      (List.range l.length).map (fun i => (n + i + 1) % uint64Size) := by
  apply List.ext_getElem?
  intro i
  simp only [List.getElem?_map, fragmentsFrom_getElem?, Option.map_map]
  by_cases hi : i < l.length
  · simp [List.getElem?_range hi, List.getElem?_eq_getElem hi, fragmentOf]
  · have h1 : l[i]? = none := by simp [List.getElem?_eq_none]; omega
    have h2 : (List.range l.length)[i]? = none := by simp [List.getElem?_eq_none]; omega
    simp [h1, h2]

theorem lastSeqAfter_eq (l : List CallbackableEvent) (n : Nat) (hn : n < uint64Size) :
    lastSeqAfter n l = (n + l.length) % uint64Size := by
  induction l generalizing n with
  | nil => simp [lastSeqAfter, Nat.mod_eq_of_lt hn]
  | cons t ts ih =>
    have hlt : (n + 1) % uint64Size < uint64Size := Nat.mod_lt _ (by unfold uint64Size; omega)
    simp only [lastSeqAfter, ih _ hlt, List.length_cons]
    unfold uint64Size
    omega


/-! ## WriteEvents -/

/-- C1. `WriteEvents` returns a non-nil error exactly when `isDead` is true at entry, and
nil exactly when it is false, whatever the list of transactions. -/
theorem WriteEvents_err_iff_isDead {κ : Type} (s : DMLSink κ) (txns : List CallbackableEvent) :
    ((WriteEvents s txns).err ≠ none ↔ s.isDead = true) ∧
    ((WriteEvents s txns).err = none ↔ s.isDead = false) := by
  cases h : s.isDead
  · simp [WriteEvents_alive s txns h]
  · simp [WriteEvents_dead s txns h]

/-- C2. On a sink that is not dead, the callbacks invoked by a call of `WriteEvents`
are those of the transactions that are not sinking, in order, one for each
occurrence in the list; no fragment the call submits carries such a transaction; and
the callback of a sinking transaction is not invoked. -/
theorem WriteEvents_callbacks {κ : Type} (s : DMLSink κ) (txns : List CallbackableEvent)
    (h : s.isDead = false) :
    (WriteEvents s txns).called = txns.filter (fun t => !isSinking t) ∧
    (∀ txn, txn.GetTableSinkState ≠ TableSinkState.TableSinkSinking →
      (WriteEvents s txns).called.count txn = txns.count txn ∧
      ∀ f ∈ submitted s txns, f.event ≠ txn) ∧
    (∀ txn, txn.GetTableSinkState = TableSinkState.TableSinkSinking →
      txn ∉ (WriteEvents s txns).called) := by
  have hc : (WriteEvents s txns).called = txns.filter (fun t => !isSinking t) := by
    rw [WriteEvents_alive s txns h]
  refine ⟨hc, ?_, ?_⟩
  · intro txn hne
    have hs : isSinking txn = false := by simpa [isSinking] using hne
    constructor
    · rw [hc, List.count_filter]
      simp [hs]
    · intro f hf heq
      rw [submitted_alive s txns h] at hf
      have hmem : f.event ∈ (fragmentsFrom s.lastSeqNum (txns.filter isSinking)).map
          eventFragment.event := List.mem_map_of_mem _ hf
      rw [fragmentsFrom_event] at hmem
      have := (List.mem_filter.mp hmem).2
      rw [heq, hs] at this
      exact Bool.false_ne_true this
  · intro txn heq hmem
    rw [hc] at hmem
    have := (List.mem_filter.mp hmem).2
    simp [isSinking, heq] at this

/-- Witness of C2: a stopping transaction followed by a sinking one. -/
theorem WriteEvents_callbacks_witness :
    (WriteEvents (runningSink 0) [stoppingTxn 7, sinkingTxn 8]).called = [stoppingTxn 7] :=
  (WriteEvents_callbacks (runningSink 0) [stoppingTxn 7, sinkingTxn 8] rfl).1

/-- Counterexample to C4 as stated: at `lastSeqNum = 2^64 - 1` the fragment of the next
sinking transaction gets sequence number 0, and the counter is 0 afterwards. -/
theorem WriteEvents_seq_wraps :
    (runningSink (uint64Size - 1)).isDead = false ∧
    (submitted (runningSink (uint64Size - 1)) [sinkingTxn 1]).map eventFragment.seqNumber = [0] ∧
    (WriteEvents (runningSink (uint64Size - 1)) [sinkingTxn 1]).sink.lastSeqNum = 0 ∧
    (runningSink (uint64Size - 1)).lastSeqNum + 1 = uint64Size := by
  decide

/-- C4, amended. On a sink that is not dead, with `lastSeqNum = n` a `uint64`, a call of
`WriteEvents` appends to `msgCh` one fragment for each sinking transaction, in order;
the `i`-th (from 1) has sequence number `(n + i) mod 2^64`, carries that transaction
and its versioned table, and has no encoded messages; the counter ends at
`(n + k) mod 2^64`. When `n + k < 2^64` the sequence numbers are `n + i`, the counter
ends at `n + k`, and the fragments of the call, hence those of any one versioned table,
are in ascending order of sequence number. -/
theorem WriteEvents_submits {κ : Type} (s : DMLSink κ) (txns : List CallbackableEvent)
    (h : s.isDead = false) (hn : s.lastSeqNum < uint64Size) :
    (WriteEvents s txns).sink.msgCh = s.msgCh ++ submitted s txns ∧
    (submitted s txns).length = (txns.filter isSinking).length ∧
    (submitted s txns).map eventFragment.event = txns.filter isSinking ∧
    (∀ i txn, (txns.filter isSinking)[i]? = some txn →
      (submitted s txns)[i]? = some
        ({ seqNumber := (s.lastSeqNum + (i + 1)) % uint64Size
           event := txn
           versionedTable :=
             { TableNameWithPhysicTableID := txn.Event.Table
               TableInfoVersion := txn.Event.TableInfoVersion }
           encodedMsgs := none } : eventFragment)) ∧
    (WriteEvents s txns).sink.lastSeqNum =
      (s.lastSeqNum + (txns.filter isSinking).length) % uint64Size ∧
    (s.lastSeqNum + (txns.filter isSinking).length < uint64Size →
      (∀ i f, (submitted s txns)[i]? = some f → f.seqNumber = s.lastSeqNum + (i + 1)) ∧
      (WriteEvents s txns).sink.lastSeqNum = s.lastSeqNum + (txns.filter isSinking).length ∧
      (submitted s txns).Pairwise (fun a b => a.seqNumber < b.seqNumber) ∧
      ∀ tbl, ((submitted s txns).filter (fun f => decide (f.versionedTable = tbl))).Pairwise
        (fun a b => a.seqNumber < b.seqNumber)) := by
  have hsub := submitted_alive s txns h
  have hget : ∀ i txn, (txns.filter isSinking)[i]? = some txn →
      (submitted s txns)[i]? = some (fragmentOf ((s.lastSeqNum + (i + 1)) % uint64Size) txn) := by
    intro i txn hi
    rw [hsub, fragmentsFrom_getElem?, hi]
    simp [Nat.add_assoc]
  have hlast : (WriteEvents s txns).sink.lastSeqNum =
      (s.lastSeqNum + (txns.filter isSinking).length) % uint64Size := by
    rw [WriteEvents_alive s txns h]
    exact lastSeqAfter_eq _ _ hn
  refine ⟨msgCh_eq_append_submitted s txns, ?_, ?_, ?_, hlast, ?_⟩
  · rw [hsub, fragmentsFrom_length]
  · rw [hsub, fragmentsFrom_event]
  · intro i txn hi
    exact hget i txn hi
  · intro hlt
    have hseq : ∀ i f, (submitted s txns)[i]? = some f → f.seqNumber = s.lastSeqNum + (i + 1) := by
      intro i f hf
      have hi : i < (txns.filter isSinking).length := by
        have := (List.getElem?_eq_some.mp hf).1
        rwa [hsub, fragmentsFrom_length] at this
      have h2 := hget i _ (List.getElem?_eq_getElem hi)
      rw [hf] at h2
      have h3 : f = fragmentOf ((s.lastSeqNum + (i + 1)) % uint64Size)
          ((txns.filter isSinking)[i]) := Option.some.inj h2
      rw [h3]
      simp only [fragmentOf]
      exact Nat.mod_eq_of_lt (by omega)
    have hpw : (submitted s txns).Pairwise (fun a b => a.seqNumber < b.seqNumber) := by
      rw [List.pairwise_iff_getElem]
      intro i j hi hj hij
      have e1 := hseq i _ (List.getElem?_eq_getElem hi)
      have e2 := hseq j _ (List.getElem?_eq_getElem hj)
      omega
    refine ⟨hseq, ?_, hpw, ?_⟩
    · rw [hlast]
      exact Nat.mod_eq_of_lt hlt
    · intro tbl
      exact hpw.sublist (List.filter_sublist _)

/-- Witness of C4: two sinking transactions around a stopping one, counter at 5. -/
theorem WriteEvents_submits_witness :
    (WriteEvents (runningSink 5) [sinkingTxn 1, stoppingTxn 2, sinkingTxn 3]).sink.lastSeqNum =
      (5 + 2) % uint64Size :=
  (WriteEvents_submits (runningSink 5) [sinkingTxn 1, stoppingTxn 2, sinkingTxn 3] rfl
    (by decide)).2.2.2.2.1


/-! ## The system: steps and traces -/

theorem exec_cons_some {κ : Type} (cl : Closers κ) (σ σ' : System κ) (a : Action)
    (as : List Action) (h : step cl σ a = some σ') : exec cl σ (a :: as) = exec cl σ' as := by
  simp [exec, h]

theorem exec_cons_eq_some {κ : Type} (cl : Closers κ) (σ τ : System κ) (a : Action)
    (as : List Action) (h : exec cl σ (a :: as) = some τ) :
    ∃ σ', step cl σ a = some σ' ∧ exec cl σ' as = some τ := by
  cases hs : step cl σ a with
  | none => simp [exec, hs] at h
  | some σ' => exact ⟨σ', rfl, by simpa [exec, hs] using h⟩

theorem exec_append {κ : Type} (cl : Closers κ) (as bs : List Action) (σ τ : System κ)
    (h : exec cl σ (as ++ bs) = some τ) :
    ∃ σ', exec cl σ as = some σ' ∧ exec cl σ' bs = some τ := by
  induction as generalizing σ with
  | nil => exact ⟨σ, rfl, h⟩
  | cons a as ih =>
    obtain ⟨σ₁, h1, h2⟩ := exec_cons_eq_some cl σ τ a (as ++ bs) h
    obtain ⟨σ', h3, h4⟩ := ih σ₁ h2
    exact ⟨σ', by rw [exec_cons_some cl σ σ₁ a as h1]; exact h3, h4⟩

theorem exec_append_some {κ : Type} (cl : Closers κ) (as bs : List Action) (σ σ' : System κ)
    (h : exec cl σ as = some σ') : exec cl σ (as ++ bs) = exec cl σ' bs := by
  induction as generalizing σ with
  | nil => simp [exec] at h; subst h; rfl
  | cons a as ih =>
    obtain ⟨σ₁, h1, h2⟩ := exec_cons_eq_some cl σ σ' a as h
    rw [List.cons_append, exec_cons_some cl σ σ₁ a _ h1]
    exact ih σ₁ h2

theorem WriteEvents_sink_fields {κ : Type} (s : DMLSink κ) (txns : List CallbackableEvent) :
    (WriteEvents s txns).sink.isDead = s.isDead ∧ (WriteEvents s txns).sink.dead = s.dead ∧
    (WriteEvents s txns).sink.wg = s.wg ∧ (WriteEvents s txns).sink.cancel = s.cancel := by
  cases h : s.isDead
  · simp [WriteEvents_alive s txns h, h]
  · simp [WriteEvents_dead s txns h, h]

theorem supervisorStep_cases {κ : Type} (σ σ' : System κ) (pick : Bool)
    (h : supervisorStep σ pick = some σ') :
    (∃ err, σ.supervisor = SupervisorPc.storeDead err ∧
      σ' = { σ with sink := { σ.sink with isDead := true },
                    supervisor := SupervisorPc.closeDead err }) ∨
    (∃ err, σ.supervisor = SupervisorPc.closeDead err ∧
      σ' = { σ with sink := { σ.sink with dead := σ.sink.dead + 1 },
                    supervisor := SupervisorPc.checkErr err }) ∨
    (∃ e, σ.supervisor = SupervisorPc.checkErr (some e) ∧
      errorsCause e ≠ GoError.contextCanceled ∧
      σ' = { σ with supervisor := SupervisorPc.select e }) ∨
    (∃ err, σ.supervisor = SupervisorPc.checkErr err ∧ shouldReport err = false ∧
      σ' = { σ with supervisor := SupervisorPc.exit }) ∨
    (∃ e, σ.supervisor = SupervisorPc.select e ∧ σ.ctxDone = true ∧
      σ' = { σ with supervisor := SupervisorPc.exit }) ∨
    (∃ e, σ.supervisor = SupervisorPc.select e ∧ σ.errChReady = true ∧
      σ' = { σ with errCh := σ.errCh ++ [e], supervisor := SupervisorPc.exit }) ∨
    (σ.supervisor = SupervisorPc.exit ∧ σ.sink.wg ≠ 0 ∧
      σ' = { σ with sink := { σ.sink with wg := σ.sink.wg - 1 },
                    supervisor := SupervisorPc.finished }) := by
  unfold supervisorStep at h
  split at h
  · rename_i err hpc
    left
    exact ⟨err, hpc, (Option.some.inj h).symm⟩
  · rename_i err hpc
    right; left
    exact ⟨err, hpc, (Option.some.inj h).symm⟩
  · rename_i err hpc
    split at h
    · rename_i e
      split at h
      · rename_i hsr
        right; right; left
        refine ⟨e, hpc, ?_, (Option.some.inj h).symm⟩
        simpa [shouldReport] using hsr
      · rename_i hsr
        right; right; right; left
        exact ⟨some e, hpc, by simpa using hsr, (Option.some.inj h).symm⟩
    · right; right; right; left
      exact ⟨none, hpc, rfl, (Option.some.inj h).symm⟩
  · rename_i e hpc
    split at h
    · exact absurd h (by simp)
    · rename_i hsel
      right; right; right; right; left
      refine ⟨e, hpc, ?_, (Option.some.inj h).symm⟩
      revert hsel
      cases σ.ctxDone <;> cases σ.errChReady <;> cases pick <;> simp [selectReport]
    · rename_i hsel
      right; right; right; right; right; left
      refine ⟨e, hpc, ?_, (Option.some.inj h).symm⟩
      revert hsel
      cases σ.ctxDone <;> cases σ.errChReady <;> cases pick <;> simp [selectReport]
  · rename_i hpc
    split at h
    · exact absurd h (by simp)
    · rename_i hwg
      right; right; right; right; right; right
      exact ⟨hpc, hwg, (Option.some.inj h).symm⟩
  · exact absurd h (by simp)


/-! ## The invariant of a sink built by NewDMLSink -/

theorem SupervisorInv_transfer {κ : Type} (hist hist' : List Action) (σ σ' : System κ)
    (hsub : ∀ a ∈ hist, a ∈ hist') (h1 : σ'.sink.cancel = σ.sink.cancel)
    (h2 : σ'.sink.isDead = σ.sink.isDead) (h3 : σ'.sink.dead = σ.sink.dead)
    (h4 : σ'.sink.wg = σ.sink.wg) (h5 : σ'.errCh = σ.errCh)
    (h6 : σ'.supervisor = σ.supervisor) (hJ : SupervisorInv hist σ) :
    SupervisorInv hist' σ' := by
  obtain ⟨hc, hpc⟩ := hJ
  refine ⟨by rw [h1]; exact hc, ?_⟩
  rw [h6, h2, h3, h4, h5]
  revert hpc
  cases σ.supervisor with
  | absent => exact id
  | run => exact id
  | storeDead err => exact fun ⟨a, b, c, d, e⟩ => ⟨a, b, c, d, hsub _ e⟩
  | closeDead err => exact fun ⟨a, b, c, d, e⟩ => ⟨a, b, c, d, hsub _ e⟩
  | checkErr err => exact fun ⟨a, b, c, d, e⟩ => ⟨a, b, c, d, hsub _ e⟩
  | select e => exact fun ⟨a, b, c, d, e, f⟩ => ⟨a, b, c, d, hsub _ e, f⟩
  | exit =>
    rintro ⟨a, b, c, d | ⟨e, d1, d2, d3⟩⟩
    · exact ⟨a, b, c, Or.inl d⟩
    · exact ⟨a, b, c, Or.inr ⟨e, d1, hsub _ d2, d3⟩⟩
  | finished =>
    rintro ⟨a, b, c, d | ⟨e, d1, d2, d3⟩⟩
    · exact ⟨a, b, c, Or.inl d⟩
    · exact ⟨a, b, c, Or.inr ⟨e, d1, hsub _ d2, d3⟩⟩

theorem SupervisorInv_step {κ : Type} (cl : Closers κ) (hist : List Action) (σ σ' : System κ)
    (a : Action) (hJ : SupervisorInv hist σ) (h : step cl σ a = some σ') :
    SupervisorInv (hist ++ [a]) σ' := by
  have hsub : ∀ b ∈ hist, b ∈ hist ++ [a] := fun b hb => List.mem_append_left _ hb
  have hlast : a ∈ hist ++ [a] := by simp
  cases a with
  | runReturns err =>
    simp only [step] at h
    split at h
    · rename_i hrun
      cases h
      obtain ⟨hc, hpc⟩ := hJ
      rw [hrun] at hpc
      obtain ⟨a1, a2, a3, a4⟩ := hpc
      exact ⟨hc, a1, a2, a3, a4, hlast⟩
    · exact absurd h (by simp)
  | supervisor pick =>
    have hJ' := SupervisorInv_transfer hist (hist ++ [Action.supervisor pick]) σ σ hsub
      rfl rfl rfl rfl rfl rfl hJ
    obtain ⟨hc, hpc⟩ := hJ'
    rcases supervisorStep_cases σ σ' pick h with
      ⟨err, hs, rfl⟩ | ⟨err, hs, rfl⟩ | ⟨e, hs, hne, rfl⟩ | ⟨err, hs, _, rfl⟩ |
      ⟨e, hs, _, rfl⟩ | ⟨e, hs, _, rfl⟩ | ⟨hs, hwg, rfl⟩
    · rw [hs] at hpc
      obtain ⟨a1, a2, a3, a4, a5⟩ := hpc
      exact ⟨hc, rfl, a2, a3, a4, a5⟩
    · rw [hs] at hpc
      obtain ⟨a1, a2, a3, a4, a5⟩ := hpc
      exact ⟨hc, a1, by simp [a2], a3, a4, a5⟩
    · rw [hs] at hpc
      obtain ⟨a1, a2, a3, a4, a5⟩ := hpc
      exact ⟨hc, a1, a2, a3, a4, a5, hne⟩
    · rw [hs] at hpc
      obtain ⟨a1, a2, a3, a4, a5⟩ := hpc
      exact ⟨hc, a1, a2, a3, Or.inl a4⟩
    · rw [hs] at hpc
      obtain ⟨a1, a2, a3, a4, a5, a6⟩ := hpc
      exact ⟨hc, a1, a2, a3, Or.inl a4⟩
    · rw [hs] at hpc
      obtain ⟨a1, a2, a3, a4, a5, a6⟩ := hpc
      exact ⟨hc, a1, a2, a3, Or.inr ⟨e, by simp [a4], a5, a6⟩⟩
    · rw [hs] at hpc
      obtain ⟨a1, a2, a3, a4⟩ := hpc
      exact ⟨hc, a1, a2, by simp [a3], a4⟩
  | writeEvents txns =>
    simp only [step] at h
    cases h
    obtain ⟨f1, f2, f3, f4⟩ := WriteEvents_sink_fields σ.sink txns
    exact SupervisorInv_transfer hist _ σ _ hsub f4 f1 f2 f3 rfl rfl hJ
  | closeCancel =>
    simp only [step] at h
    cases h
    exact SupervisorInv_transfer hist _ σ _ hsub rfl rfl rfl rfl rfl rfl hJ
  | closeReturn =>
    simp only [step] at h
    split at h
    · cases h
      exact SupervisorInv_transfer hist _ σ _ hsub rfl rfl rfl rfl rfl rfl hJ
    · exact absurd h (by simp)
  | dead =>
    simp only [step] at h
    cases h
    exact SupervisorInv_transfer hist _ σ _ hsub rfl rfl rfl rfl rfl rfl hJ
  | ctxCancel =>
    simp only [step] at h
    cases h
    exact SupervisorInv_transfer hist _ σ _ hsub rfl rfl rfl rfl rfl rfl hJ
  | errChEnv ready =>
    simp only [step] at h
    cases h
    exact SupervisorInv_transfer hist _ σ _ hsub rfl rfl rfl rfl rfl rfl hJ

theorem SupervisorInv_exec {κ : Type} (cl : Closers κ) (acts hist : List Action)
    (σ σ' : System κ) (hJ : SupervisorInv hist σ) (h : exec cl σ acts = some σ') :
    SupervisorInv (hist ++ acts) σ' := by
  induction acts generalizing hist σ with
  | nil =>
    simp only [exec, Option.some.injEq] at h
    subst h
    simpa using hJ
  | cons a as ih =>
    obtain ⟨σ₁, h1, h2⟩ := exec_cons_eq_some cl σ σ' a as h
    have := ih (hist ++ [a]) σ₁ (SupervisorInv_step cl hist σ σ₁ a hJ h1) h2
    simpa using this

theorem NewDMLSink_ok {κ : Type} (d : Deps κ) (σ₀ : System κ)
    (h : NewDMLSink d = Except.ok σ₀) :
    σ₀ =
      { sink :=
          { msgCh := []
            msgChCap := defaultChannelSize
            encodingWorkers := createWorkers d
            defragmenter := some d.newDefragmenter
            writer := some d.newDMLWriter
            statistics := some d.newStatistics
            lastSeqNum := 0
            cancel := true
            wg := 1
            dead := 0
            isDead := false }
        ctxDone := d.ctxDone
        errChReady := d.errChReady
        errCh := []
        supervisor := SupervisorPc.run
        closing := 0
        callbacks := [] } := by
  unfold NewDMLSink at h
  repeat' split at h
  all_goals first
    | exact (Except.ok.inj h).symm
    | exact Except.noConfusion h

theorem SupervisorInv_init {κ : Type} (d : Deps κ) (σ₀ : System κ)
    (h : NewDMLSink d = Except.ok σ₀) : SupervisorInv [] σ₀ := by
  rw [NewDMLSink_ok d σ₀ h]
  exact ⟨rfl, rfl, rfl, rfl, rfl⟩

theorem SupervisorInv_reachable {κ : Type} (cl : Closers κ) (d : Deps κ) (σ₀ σ : System κ)
    (acts : List Action) (h0 : NewDMLSink d = Except.ok σ₀) (h : exec cl σ₀ acts = some σ) :
    SupervisorInv acts σ := by
  simpa using SupervisorInv_exec cl acts [] σ₀ σ (SupervisorInv_init d σ₀ h0) h


/-! ## What a step leaves unchanged -/

theorem step_frame {κ : Type} (cl : Closers κ) (σ σ' : System κ) (a : Action)
    (h : step cl σ a = some σ') :
    (σ'.sink.isDead = σ.sink.isDead ∨ σ'.sink.isDead = true) ∧
    σ'.sink.wg ≤ σ.sink.wg ∧
    (σ.ctxDone = true → σ'.ctxDone = true) ∧
    σ'.sink.cancel = σ.sink.cancel ∧
    σ.supervisor.rank ≤ σ'.supervisor.rank ∧
    σ.sink.dead ≤ σ'.sink.dead := by
  cases a with
  | runReturns err =>
    simp only [step] at h
    split at h
    · rename_i hrun
      cases h
      simp [hrun, SupervisorPc.rank]
    · exact absurd h (by simp)
  | supervisor pick =>
    rcases supervisorStep_cases σ σ' pick h with
      ⟨err, hs, rfl⟩ | ⟨err, hs, rfl⟩ | ⟨e, hs, hne, rfl⟩ | ⟨err, hs, _, rfl⟩ |
      ⟨e, hs, _, rfl⟩ | ⟨e, hs, _, rfl⟩ | ⟨hs, hwg, rfl⟩ <;> simp [hs, SupervisorPc.rank]
  | writeEvents txns =>
    simp only [step] at h
    cases h
    obtain ⟨f1, f2, f3, f4⟩ := WriteEvents_sink_fields σ.sink txns
    simp [f1, f2, f3, f4]
  | closeCancel =>
    simp only [step] at h
    cases h
    simp
    intro hc
    simp [hc]
  | closeReturn =>
    simp only [step] at h
    split at h
    · cases h
      simp [closeParts]
    · exact absurd h (by simp)
  | dead =>
    simp only [step] at h
    cases h
    simp
  | ctxCancel =>
    simp only [step] at h
    cases h
    simp
  | errChEnv ready =>
    simp only [step] at h
    cases h
    simp

theorem step_isDead {κ : Type} (cl : Closers κ) (σ σ' : System κ) (a : Action)
    (h : step cl σ a = some σ') (hd : σ.sink.isDead = true) : σ'.sink.isDead = true := by
  rcases (step_frame cl σ σ' a h).1 with h1 | h1
  · rw [h1, hd]
  · exact h1

theorem exec_isDead {κ : Type} (cl : Closers κ) (acts : List Action) (σ σ' : System κ)
    (h : exec cl σ acts = some σ') (hd : σ.sink.isDead = true) : σ'.sink.isDead = true := by
  induction acts generalizing σ with
  | nil =>
    simp only [exec, Option.some.injEq] at h
    subst h
    exact hd
  | cons a as ih =>
    obtain ⟨σ₁, h1, h2⟩ := exec_cons_eq_some cl σ σ' a as h
    exact ih σ₁ h2 (step_isDead cl σ σ₁ a h1 hd)

theorem exec_frame {κ : Type} (cl : Closers κ) (acts : List Action) (σ σ' : System κ)
    (h : exec cl σ acts = some σ') :
    σ'.sink.wg ≤ σ.sink.wg ∧ (σ.ctxDone = true → σ'.ctxDone = true) ∧
    σ'.sink.cancel = σ.sink.cancel ∧ σ.supervisor.rank ≤ σ'.supervisor.rank ∧
    σ.sink.dead ≤ σ'.sink.dead := by
  induction acts generalizing σ with
  | nil =>
    simp only [exec, Option.some.injEq] at h
    subst h
    simp
  | cons a as ih =>
    obtain ⟨σ₁, h1, h2⟩ := exec_cons_eq_some cl σ σ' a as h
    obtain ⟨_, b1, b2, b3, b4, b5⟩ := step_frame cl σ σ₁ a h1
    obtain ⟨c1, c2, c3, c4, c5⟩ := ih σ₁ h2
    exact ⟨le_trans c1 b1, fun hc => c2 (b2 hc), by rw [c3, b3], le_trans b4 c4, le_trans b5 c5⟩

/-! ## Sequence numbers -/

theorem mod_add_succ_mod (m i : Nat) :
    (m % uint64Size + i + 1) % uint64Size = (m + i + 1) % uint64Size := by
  unfold uint64Size
  omega

theorem SeqInv_WriteEvents {κ : Type} (s : DMLSink κ) (txns : List CallbackableEvent)
    (h : SeqInv s) : SeqInv (WriteEvents s txns).sink := by
  cases hd : s.isDead
  · obtain ⟨h1, h2⟩ := h
    rw [WriteEvents_alive s txns hd]
    have hlt : s.lastSeqNum < uint64Size := by
      rw [h2]
      exact Nat.mod_lt _ (by unfold uint64Size; omega)
    constructor
    · simp only [List.map_append, List.length_append, fragmentsFrom_length, fragmentsFrom_seq,
        h1, List.range_add, List.map_map]
      congr 1
      apply List.map_congr_left
      intro i _
      simp only [Function.comp, h2]
      rw [mod_add_succ_mod]
    · simp only [List.length_append, fragmentsFrom_length]
      rw [lastSeqAfter_eq _ _ hlt, h2]
      unfold uint64Size
      omega
  · rw [WriteEvents_dead s txns hd]
    exact h

theorem SeqInv_step {κ : Type} (cl : Closers κ) (σ σ' : System κ) (a : Action)
    (hI : SeqInv σ.sink) (h : step cl σ a = some σ') : SeqInv σ'.sink := by
  cases a with
  | runReturns err =>
    simp only [step] at h
    split at h
    · cases h; exact hI
    · exact absurd h (by simp)
  | supervisor pick =>
    rcases supervisorStep_cases σ σ' pick h with
      ⟨err, hs, rfl⟩ | ⟨err, hs, rfl⟩ | ⟨e, hs, hne, rfl⟩ | ⟨err, hs, _, rfl⟩ |
      ⟨e, hs, _, rfl⟩ | ⟨e, hs, _, rfl⟩ | ⟨hs, hwg, rfl⟩ <;> exact hI
  | writeEvents txns =>
    simp only [step] at h
    cases h
    exact SeqInv_WriteEvents σ.sink txns hI
  | closeCancel => simp only [step] at h; cases h; exact hI
  | closeReturn =>
    simp only [step] at h
    split at h
    · cases h; exact hI
    · exact absurd h (by simp)
  | dead => simp only [step] at h; cases h; exact hI
  | ctxCancel => simp only [step] at h; cases h; exact hI
  | errChEnv ready => simp only [step] at h; cases h; exact hI

theorem SeqInv_exec {κ : Type} (cl : Closers κ) (acts : List Action) (σ σ' : System κ)
    (hI : SeqInv σ.sink) (h : exec cl σ acts = some σ') : SeqInv σ'.sink := by
  induction acts generalizing σ with
  | nil =>
    simp only [exec, Option.some.injEq] at h
    subst h
    exact hI
  | cons a as ih =>
    obtain ⟨σ₁, h1, h2⟩ := exec_cons_eq_some cl σ σ' a as h
    exact ih σ₁ (SeqInv_step cl σ σ₁ a hI h1) h2

theorem SeqInv_init {κ : Type} (d : Deps κ) (σ₀ : System κ)
    (h : NewDMLSink d = Except.ok σ₀) : SeqInv σ₀.sink := by
  rw [NewDMLSink_ok d σ₀ h]
  exact ⟨rfl, rfl⟩

theorem SeqInv_not_nodup {κ : Type} (s : DMLSink κ) (h : SeqInv s)
    (hlen : uint64Size < s.msgCh.length) :
    ¬ (s.msgCh.map eventFragment.seqNumber).Nodup := by
  rw [h.1, List.nodup_map_iff_inj_on (List.nodup_range _)]
  intro hinj
  have h0 : (0 : Nat) ∈ List.range s.msgCh.length := List.mem_range.mpr (by omega)
  have hM : uint64Size ∈ List.range s.msgCh.length := List.mem_range.mpr hlen
  have := hinj 0 h0 uint64Size hM (by unfold uint64Size; omega)
  unfold uint64Size at this
  omega


theorem exec_writeEvents {κ : Type} (cl : Closers κ) (σ : System κ)
    (txns : List CallbackableEvent) :
    exec cl σ [Action.writeEvents txns] =
      some { σ with sink := (WriteEvents σ.sink txns).sink,
                    callbacks := σ.callbacks ++ (WriteEvents σ.sink txns).called } := rfl

theorem exec_single_calls {κ : Type} (cl : Closers κ) (t : CallbackableEvent)
    (ht : isSinking t = true) (n : Nat) (σ : System κ) (hd : σ.sink.isDead = false) :
    ∃ σ', exec cl σ (List.replicate n (Action.writeEvents [t])) = some σ' ∧
      σ'.sink.msgCh.length = σ.sink.msgCh.length + n ∧ σ'.sink.isDead = false := by
  induction n generalizing σ with
  | zero => exact ⟨σ, rfl, rfl, hd⟩
  | succ n ih =>
    have hstep : step cl σ (Action.writeEvents [t]) =
        some { σ with sink := (WriteEvents σ.sink [t]).sink,
                      callbacks := σ.callbacks ++ (WriteEvents σ.sink [t]).called } := rfl
    have hlen : (WriteEvents σ.sink [t]).sink.msgCh.length = σ.sink.msgCh.length + 1 := by
      rw [WriteEvents_alive _ _ hd]
      simp [ht, fragmentsFrom]
    have hd' : (WriteEvents σ.sink [t]).sink.isDead = false := by
      rw [(WriteEvents_sink_fields σ.sink [t]).1, hd]
    obtain ⟨σ', e1, e2, e3⟩ := ih
      { σ with sink := (WriteEvents σ.sink [t]).sink,
               callbacks := σ.callbacks ++ (WriteEvents σ.sink [t]).called } hd'
    refine ⟨σ', ?_, ?_, e3⟩
    · rw [List.replicate_succ, exec_cons_some cl σ _ _ _ hstep]
      exact e1
    · rw [e2]
      show (WriteEvents σ.sink [t]).sink.msgCh.length + n = σ.sink.msgCh.length + (n + 1)
      omega

theorem wrap_after_single_calls (n : Nat) (hn : uint64Size < n) :
    ∃ σ, NewDMLSink exampleDeps = Except.ok exampleInit ∧
      exec exampleClosers exampleInit
        (List.replicate n (Action.writeEvents [sinkingTxn 0])) = some σ ∧
      σ.sink.msgCh.length = n ∧
      (σ.sink.msgCh.map eventFragment.seqNumber)[0]? = some 1 ∧
      (σ.sink.msgCh.map eventFragment.seqNumber)[uint64Size]? = some 1 ∧
      ¬ (σ.sink.msgCh.map eventFragment.seqNumber).Nodup := by
  obtain ⟨σ, e1, e2, _⟩ := exec_single_calls exampleClosers (sinkingTxn 0) rfl n exampleInit rfl
  have hlen : σ.sink.msgCh.length = n := by
    rw [e2]
    show 0 + n = n
    omega
  have hinv : SeqInv σ.sink := SeqInv_exec exampleClosers _ exampleInit σ ⟨rfl, rfl⟩ e1
  have hpos : 0 < uint64Size := by unfold uint64Size; omega
  refine ⟨σ, rfl, e1, hlen, ?_, ?_, SeqInv_not_nodup σ.sink hinv (by rw [hlen]; exact hn)⟩
  · rw [hinv.1, List.getElem?_map, List.getElem?_range (by omega)]
    simp [uint64Size]
  · rw [hinv.1, List.getElem?_map, List.getElem?_range (by omega)]
    simp [uint64Size]

/-- Counterexample to C3 as stated: `2^64 + 1` calls of `WriteEvents`, each with one
sinking transaction, on the sink that `NewDMLSink` returns. The counter wraps around:
the first fragment and the last one both carry sequence number 1, so the sequence
numbers of the submitted fragments are not pairwise distinct. -/
theorem seqNumber_repeats_after_wrap :
    ∃ σ, NewDMLSink exampleDeps = Except.ok exampleInit ∧
      exec exampleClosers exampleInit
        (List.replicate (uint64Size + 1) (Action.writeEvents [sinkingTxn 0])) = some σ ∧
      σ.sink.msgCh.length = uint64Size + 1 ∧
      (σ.sink.msgCh.map eventFragment.seqNumber)[0]? = some 1 ∧
      (σ.sink.msgCh.map eventFragment.seqNumber)[uint64Size]? = some 1 ∧
      ¬ (σ.sink.msgCh.map eventFragment.seqNumber).Nodup :=
  wrap_after_single_calls (uint64Size + 1) (Nat.lt_succ_self _)

/-- C3, amended. In every state that a sink built by `NewDMLSink` reaches, whatever the
calls of `WriteEvents` and the other actions, the `i`-th fragment on `msgCh` (from 1)
has sequence number `i mod 2^64` and the counter is the number of fragments modulo
`2^64`; while fewer than `2^64` fragments have been submitted the sequence numbers
are `1, 2, ..., k`: pairwise distinct, strictly increasing in submission order, the
first one 1. -/
theorem seqNumbers_of_reachable {κ : Type} (cl : Closers κ) (d : Deps κ) (σ₀ σ : System κ)
    (acts : List Action) (h0 : NewDMLSink d = Except.ok σ₀)
    (h : exec cl σ₀ acts = some σ) :
    σ.sink.msgCh.map eventFragment.seqNumber =
      (List.range σ.sink.msgCh.length).map (fun i => (i + 1) % uint64Size) ∧
    σ.sink.lastSeqNum = σ.sink.msgCh.length % uint64Size ∧
    (σ.sink.msgCh.length < uint64Size →
      σ.sink.msgCh.map eventFragment.seqNumber = List.range' 1 σ.sink.msgCh.length ∧
      (σ.sink.msgCh.map eventFragment.seqNumber).Nodup ∧
      (σ.sink.msgCh.map eventFragment.seqNumber).Pairwise (fun a b => a < b) ∧
      ∀ f, σ.sink.msgCh.head? = some f → f.seqNumber = 1) := by
  have hinv : SeqInv σ.sink := SeqInv_exec cl acts σ₀ σ (SeqInv_init d σ₀ h0) h
  refine ⟨hinv.1, hinv.2, ?_⟩
  intro hlt
  have hseq : σ.sink.msgCh.map eventFragment.seqNumber = List.range' 1 σ.sink.msgCh.length := by
    rw [hinv.1, List.range'_eq_map_range]
    apply List.map_congr_left
    intro i hi
    have := List.mem_range.mp hi
    rw [Nat.mod_eq_of_lt (by omega)]
    omega
  refine ⟨hseq, ?_, ?_, ?_⟩
  · rw [hseq]
    exact List.nodup_range' _ _
  · rw [hseq]
    exact List.pairwise_lt_range' _ _
  · intro f hf
    have h1 : (σ.sink.msgCh.map eventFragment.seqNumber).head? = some f.seqNumber := by
      rw [List.head?_map, hf]
      rfl
    rw [hseq] at h1
    cases hlen : σ.sink.msgCh.length with
    | zero => rw [hlen] at h1; simp at h1
    | succ n =>
      rw [hlen] at h1
      simp [List.range'_succ] at h1
      exact h1.symm

/-- Witness of C3: two calls of `WriteEvents` around the end of `run`. -/
theorem seqNumbers_of_reachable_witness :
    (exampleSystem 2 [fragmentOf 1 (sinkingTxn 1), fragmentOf 2 (sinkingTxn 3)] false 0 1 false []
      (SupervisorPc.storeDead none) 0 [stoppingTxn 2]).sink.lastSeqNum = 2 % uint64Size :=
  (seqNumbers_of_reachable exampleClosers exampleDeps exampleInit
    (exampleSystem 2 [fragmentOf 1 (sinkingTxn 1), fragmentOf 2 (sinkingTxn 3)] false 0 1 false []
      (SupervisorPc.storeDead none) 0 [stoppingTxn 2])
    [Action.writeEvents [sinkingTxn 1, stoppingTxn 2], Action.runReturns none,
     Action.writeEvents [sinkingTxn 3]] rfl rfl).2.1

/-- C5. The flag `isDead` is false in the sink that `NewDMLSink` returns; a step either
leaves it as it is or makes it true; so once it is true it is true after any further
actions, and every call of `WriteEvents` from then on returns an error. -/
theorem isDead_one_way {κ : Type} (cl : Closers κ) (σ σ' : System κ) (acts : List Action)
    (txns : List CallbackableEvent) (h : exec cl σ acts = some σ')
    (hd : σ.sink.isDead = true) :
    σ'.sink.isDead = true ∧ (WriteEvents σ'.sink txns).err ≠ none ∧
    (∀ (d : Deps κ) (σ₀ : System κ), NewDMLSink d = Except.ok σ₀ → σ₀.sink.isDead = false) ∧
    (∀ (τ τ' : System κ) (a : Action), step cl τ a = some τ' →
      τ'.sink.isDead = τ.sink.isDead ∨ τ'.sink.isDead = true) := by
  have hd' := exec_isDead cl acts σ σ' h hd
  refine ⟨hd', ?_, ?_, ?_⟩
  · rw [WriteEvents_dead _ _ hd']
    simp
  · intro d σ₀ h0
    rw [NewDMLSink_ok d σ₀ h0]
  · intro τ τ' a hs
    exact (step_frame cl τ τ' a hs).1

/-- Witness of C5: the goroutine stores the flag, then a call of `WriteEvents` and a call
of `Close` begin. -/
theorem isDead_one_way_witness :
    (WriteEvents (exampleSystem 0 [] true 1 1 true [] (SupervisorPc.checkErr none) 1 []).sink
      [sinkingTxn 1]).err ≠ none :=
  (isDead_one_way exampleClosers
    (exampleSystem 0 [] true 0 1 false [] (SupervisorPc.closeDead none) 0 [])
    (exampleSystem 0 [] true 1 1 true [] (SupervisorPc.checkErr none) 1 [])
    [Action.writeEvents [sinkingTxn 1], Action.supervisor true, Action.closeCancel]
    [sinkingTxn 1] rfl rfl).2.1


/-! ## The dead channel and Close -/

theorem SupervisorInv_facts {κ : Type} (hist : List Action) (σ : System κ)
    (hJ : SupervisorInv hist σ) :
    σ.sink.dead ≤ 1 ∧ (0 < σ.sink.dead → σ.sink.isDead = true) ∧
    (σ.sink.wg = 0 → σ.sink.isDead = true ∧ σ.sink.dead = 1 ∧
      σ.supervisor = SupervisorPc.finished) ∧
    (σ.supervisor = SupervisorPc.finished → σ.sink.wg = 0) ∧
    (σ.supervisor = SupervisorPc.exit → σ.sink.wg = 1) ∧
    (∀ err, σ.supervisor = SupervisorPc.closeDead err →
      σ.sink.isDead = true ∧ σ.sink.dead = 0) ∧
    (σ.sink.isDead = true → 3 ≤ σ.supervisor.rank) ∧
    σ.sink.cancel = true := by
  obtain ⟨hc, hpc⟩ := hJ
  revert hpc
  cases hs : σ.supervisor <;> simp only [SupervisorPc.rank] <;> intro hpc
  · exact hpc.elim
  all_goals
    obtain ⟨a1, a2, a3, _⟩ := hpc
    simp [a1, a2, a3, hc]

theorem step_dead {κ : Type} (cl : Closers κ) (σ σ' : System κ) (a : Action)
    (h : step cl σ a = some σ') :
    σ'.sink.dead = σ.sink.dead ∨
      ∃ err, σ.supervisor = SupervisorPc.closeDead err ∧ σ'.sink.dead = σ.sink.dead + 1 := by
  cases a with
  | runReturns err =>
    simp only [step] at h
    split at h
    · cases h; exact Or.inl rfl
    · exact absurd h (by simp)
  | supervisor pick =>
    rcases supervisorStep_cases σ σ' pick h with
      ⟨err, hs, rfl⟩ | ⟨err, hs, rfl⟩ | ⟨e, hs, hne, rfl⟩ | ⟨err, hs, _, rfl⟩ |
      ⟨e, hs, _, rfl⟩ | ⟨e, hs, _, rfl⟩ | ⟨hs, hwg, rfl⟩
    · exact Or.inl rfl
    · exact Or.inr ⟨err, hs, rfl⟩
    all_goals exact Or.inl rfl
  | writeEvents txns =>
    simp only [step] at h
    cases h
    exact Or.inl (WriteEvents_sink_fields σ.sink txns).2.1
  | closeCancel => simp only [step] at h; cases h; exact Or.inl rfl
  | closeReturn =>
    simp only [step] at h
    split at h
    · cases h; exact Or.inl rfl
    · exact absurd h (by simp)
  | dead => simp only [step] at h; cases h; exact Or.inl rfl
  | ctxCancel => simp only [step] at h; cases h; exact Or.inl rfl
  | errChEnv ready => simp only [step] at h; cases h; exact Or.inl rfl

/-- C6. In every state that a sink built by `NewDMLSink` reaches, the dead channel has
been closed at most once and, if it is closed, `isDead` is true; the step that closes
it starts from a state in which `isDead` is already true and the channel is open; and
once the channel is closed every call of `WriteEvents`, now or after any further
actions, returns an error. -/
theorem dead_closed_imp_isDead {κ : Type} (cl : Closers κ) (d : Deps κ) (σ₀ σ : System κ)
    (acts : List Action) (h0 : NewDMLSink d = Except.ok σ₀)
    (h : exec cl σ₀ acts = some σ) :
    (Dead σ.sink ≤ 1 ∧ (0 < Dead σ.sink → σ.sink.isDead = true)) ∧
    (∀ a σ', step cl σ a = some σ' → Dead σ'.sink ≠ Dead σ.sink →
      σ.sink.isDead = true ∧ Dead σ.sink = 0 ∧ Dead σ'.sink = 1) ∧
    (0 < Dead σ.sink → ∀ acts' σ' txns, exec cl σ acts' = some σ' →
      (WriteEvents σ'.sink txns).err ≠ none) := by
  have hJ := SupervisorInv_reachable cl d σ₀ σ acts h0 h
  obtain ⟨f1, f2, _, _, _, f6, _, _⟩ := SupervisorInv_facts acts σ hJ
  refine ⟨⟨f1, f2⟩, ?_, ?_⟩
  · intro a σ' hs hne
    rcases step_dead cl σ σ' a hs with heq | ⟨err, hpc, heq⟩
    · exact absurd heq hne
    · obtain ⟨g1, g2⟩ := f6 err hpc
      refine ⟨g1, g2, ?_⟩
      show σ'.sink.dead = 1
      rw [heq, g2]
  · intro hpos acts' σ' txns h'
    have hd := exec_isDead cl acts' σ σ' h' (f2 hpos)
    rw [WriteEvents_dead _ _ hd]
    simp

/-- Witness of C6: `run` returns nil, the goroutine stores the flag and closes the
channel. -/
theorem dead_closed_imp_isDead_witness :
    Dead (exampleSystem 0 [] true 1 1 false [] (SupervisorPc.checkErr none) 0 []).sink ≤ 1 ∧
    (0 < Dead (exampleSystem 0 [] true 1 1 false [] (SupervisorPc.checkErr none) 0 []).sink →
      (exampleSystem 0 [] true 1 1 false [] (SupervisorPc.checkErr none) 0 []).sink.isDead
        = true) :=
  (dead_closed_imp_isDead exampleClosers exampleDeps exampleInit
    (exampleSystem 0 [] true 1 1 false [] (SupervisorPc.checkErr none) 0 [])
    [Action.runReturns none, Action.supervisor true, Action.supervisor true] rfl rfl).1

/-- C7. After a call of `Close` has returned on a sink built by `NewDMLSink`, now or
after any further actions, `isDead` is true and the dead channel is closed, and a call
of `WriteEvents` returns the error, invokes no callback, submits no fragment and
leaves the sink as it is. -/
theorem dead_after_Close {κ : Type} (cl : Closers κ) (d : Deps κ) (σ₀ σ₁ σ₂ : System κ)
    (acts acts' : List Action) (txns : List CallbackableEvent)
    (h0 : NewDMLSink d = Except.ok σ₀)
    (h1 : exec cl σ₀ (acts ++ [Action.closeReturn]) = some σ₁)
    (h2 : exec cl σ₁ acts' = some σ₂) :
    σ₂.sink.isDead = true ∧ 0 < Dead σ₂.sink ∧
    (WriteEvents σ₂.sink txns).err = some (GoError.trace (GoError.new "dead dmlSink")) ∧
    (WriteEvents σ₂.sink txns).called = [] ∧
    submitted σ₂.sink txns = [] ∧
    (WriteEvents σ₂.sink txns).sink = σ₂.sink ∧
    step cl σ₂ (Action.writeEvents txns) = some σ₂ := by
  obtain ⟨σ', e1, e2⟩ := exec_append cl acts [Action.closeReturn] σ₀ σ₁ h1
  obtain ⟨τ, s1, s2⟩ := exec_cons_eq_some cl σ' σ₁ Action.closeReturn [] e2
  simp only [exec, Option.some.injEq] at s2
  subst s2
  have hwg1 : τ.sink.wg = 0 := by
    simp only [step] at s1
    split at s1
    · rename_i hg
      cases s1
      exact hg.2
    · exact absurd s1 (by simp)
  have hwg2 : σ₂.sink.wg = 0 := by
    have := (exec_frame cl acts' τ σ₂ h2).1
    omega
  have hreach : exec cl σ₀ ((acts ++ [Action.closeReturn]) ++ acts') = some σ₂ := by
    rw [exec_append_some cl _ acts' σ₀ τ h1]
    exact h2
  have hJ := SupervisorInv_reachable cl d σ₀ σ₂ _ h0 hreach
  obtain ⟨_, _, f3, _⟩ := SupervisorInv_facts _ σ₂ hJ
  obtain ⟨g1, g2, _⟩ := f3 hwg2
  have hw := WriteEvents_dead σ₂.sink txns g1
  refine ⟨g1, ?_, ?_, ?_, submitted_dead σ₂.sink txns g1, ?_, ?_⟩
  · show 0 < σ₂.sink.dead
    omega
  · rw [hw]
  · rw [hw]
  · rw [hw]
  · simp only [step, hw, List.append_nil]

/-- Witness of C7: `Close` cancels, `run` returns the cancellation, the goroutine ends,
`Close` returns, and a call of `WriteEvents` follows. -/
theorem dead_after_Close_witness :
    (WriteEvents (exampleSystem 0 [] true 1 0 true [] SupervisorPc.finished 0 []).sink
      [stoppingTxn 1, sinkingTxn 2]).called = [] :=
  (dead_after_Close exampleClosers exampleDeps exampleInit
    (exampleSystem 0 [] true 1 0 true [] SupervisorPc.finished 0 [])
    (exampleSystem 0 [] true 1 0 true [] SupervisorPc.finished 0 [])
    [Action.closeCancel, Action.runReturns (some GoError.contextCanceled),
     Action.supervisor true, Action.supervisor true, Action.supervisor true,
     Action.supervisor true]
    [Action.writeEvents [stoppingTxn 1, sinkingTxn 2]] [stoppingTxn 1, sinkingTxn 2]
    rfl rfl rfl).2.2.2.1

/-! ## Reporting on the error channel -/

theorem shouldReport_iff (err : Option GoError) :
    shouldReport err = true ↔ ∃ e, err = some e ∧ errorsCause e ≠ GoError.contextCanceled := by
  cases err with
  | none => simp [shouldReport]
  | some e => simp [shouldReport]

/-- C8. For a sink built by `NewDMLSink`, in every state reached: the goroutine has sent
on `errCh` nothing, or exactly one error, which `run` returned and whose cause is not
`context.Canceled`; at the test of the result of `run` it goes to the `select` exactly
when the result is non-nil with a cause other than `context.Canceled`, and otherwise
ends without touching `errCh`; a step at the `select` either sends exactly that error
or leaves `errCh` empty with the scope cancelled; and the goroutine never moves
backwards, so it is at the `select` at most once. -/
theorem supervisor_reports_once {κ : Type} (cl : Closers κ) (d : Deps κ) (σ₀ σ : System κ)
    (acts : List Action) (h0 : NewDMLSink d = Except.ok σ₀)
    (h : exec cl σ₀ acts = some σ) :
    (σ.errCh = [] ∨ ∃ e, σ.errCh = [e] ∧ Action.runReturns (some e) ∈ acts ∧
      errorsCause e ≠ GoError.contextCanceled) ∧
    (∀ err pick, σ.supervisor = SupervisorPc.checkErr err →
      ∃ σ', step cl σ (Action.supervisor pick) = some σ' ∧ σ'.errCh = σ.errCh ∧
        ((∃ e, err = some e ∧ errorsCause e ≠ GoError.contextCanceled ∧
            σ'.supervisor = SupervisorPc.select e) ∨
         ((err = none ∨ ∃ e, err = some e ∧ errorsCause e = GoError.contextCanceled) ∧
            σ'.supervisor = SupervisorPc.exit))) ∧
    (∀ e pick σ', σ.supervisor = SupervisorPc.select e →
      step cl σ (Action.supervisor pick) = some σ' →
      Action.runReturns (some e) ∈ acts ∧ σ'.supervisor = SupervisorPc.exit ∧
        (σ'.errCh = [e] ∨ (σ'.errCh = [] ∧ σ.ctxDone = true))) ∧
    (∀ acts' σ', exec cl σ acts' = some σ' → σ.supervisor.rank ≤ σ'.supervisor.rank) := by
  have hJ := SupervisorInv_reachable cl d σ₀ σ acts h0 h
  refine ⟨?_, ?_, ?_, ?_⟩
  · obtain ⟨_, hpc⟩ := hJ
    revert hpc
    cases hs : σ.supervisor <;> simp only <;> intro hpc
    · exact hpc.elim
    · exact Or.inl hpc.2.2.2
    · exact Or.inl hpc.2.2.2.1
    · exact Or.inl hpc.2.2.2.1
    · exact Or.inl hpc.2.2.2.1
    · exact Or.inl hpc.2.2.2.1
    · exact hpc.2.2.2
    · exact hpc.2.2.2
  · intro err pick hs
    cases err with
    | none =>
      exact ⟨{ σ with supervisor := SupervisorPc.exit }, by simp [step, supervisorStep, hs], rfl,
        Or.inr ⟨Or.inl rfl, rfl⟩⟩
    | some e =>
      by_cases hc : errorsCause e = GoError.contextCanceled
      · exact ⟨{ σ with supervisor := SupervisorPc.exit },
          by simp [step, supervisorStep, hs, shouldReport, hc], rfl,
          Or.inr ⟨Or.inr ⟨e, rfl, hc⟩, rfl⟩⟩
      · exact ⟨{ σ with supervisor := SupervisorPc.select e },
          by simp [step, supervisorStep, hs, shouldReport, hc], rfl,
          Or.inl ⟨e, rfl, hc, rfl⟩⟩
  · intro e pick σ' hs hstep
    obtain ⟨_, hpc⟩ := hJ
    rw [hs] at hpc
    obtain ⟨_, _, _, herr, hmem, _⟩ := hpc
    refine ⟨hmem, ?_⟩
    rcases supervisorStep_cases σ σ' pick hstep with
      ⟨err, hs', rfl⟩ | ⟨err, hs', rfl⟩ | ⟨e', hs', hne, rfl⟩ | ⟨err, hs', _, rfl⟩ |
      ⟨e', hs', hctx, rfl⟩ | ⟨e', hs', _, rfl⟩ | ⟨hs', hwg, rfl⟩
    · rw [hs] at hs'; cases hs'
    · rw [hs] at hs'; cases hs'
    · rw [hs] at hs'; cases hs'
    · rw [hs] at hs'; cases hs'
    · exact ⟨rfl, Or.inr ⟨herr, hctx⟩⟩
    · rw [hs] at hs'
      cases hs'
      exact ⟨rfl, Or.inl (by simp [herr])⟩
    · rw [hs] at hs'; cases hs'
  · intro acts' σ' h'
    exact (exec_frame cl acts' σ σ' h').2.2.2.1

/-- Witness of C8: `run` returns a fatal error while the error channel can accept it. -/
theorem supervisor_reports_once_witness :
    ({ exampleSystem 0 [] true 1 1 false [fatalError] SupervisorPc.exit 0 [] with
        errChReady := true }).errCh = [] ∨
    ∃ e, ({ exampleSystem 0 [] true 1 1 false [fatalError] SupervisorPc.exit 0 [] with
        errChReady := true }).errCh = [e] ∧
      Action.runReturns (some e) ∈
        [Action.errChEnv true, Action.runReturns (some fatalError), Action.supervisor true,
         Action.supervisor true, Action.supervisor true, Action.supervisor true] ∧
      errorsCause e ≠ GoError.contextCanceled :=
  (supervisor_reports_once exampleClosers exampleDeps exampleInit
    { exampleSystem 0 [] true 1 1 false [fatalError] SupervisorPc.exit 0 [] with
        errChReady := true }
    [Action.errChEnv true, Action.runReturns (some fatalError), Action.supervisor true,
     Action.supervisor true, Action.supervisor true, Action.supervisor true] rfl rfl).1

/-- Counterexample to C9 as stated. On the sink that `NewDMLSink` returns, after `run`
has returned a fatal error, with the scope live and the error channel unable to
accept a send, the goroutine is at the `select` and cannot take a step: the report
waits. And with the scope cancelled and the channel able to accept, the error may
still be sent. -/
theorem report_waits :
    NewDMLSink exampleDeps = Except.ok exampleInit ∧
    exec exampleClosers exampleInit
      [Action.runReturns (some fatalError), Action.supervisor true, Action.supervisor true,
       Action.supervisor true] =
      some (exampleSystem 0 [] true 1 1 false [] (SupervisorPc.select fatalError) 0 []) ∧
    (∀ pick, step exampleClosers
      (exampleSystem 0 [] true 1 1 false [] (SupervisorPc.select fatalError) 0 [])
      (Action.supervisor pick) = none) ∧
    selectReport false false true = SelectResult.blocked ∧
    selectReport false false false = SelectResult.blocked ∧
    exec exampleClosers exampleInit
      [Action.runReturns (some fatalError), Action.supervisor true, Action.supervisor true,
       Action.supervisor true, Action.closeCancel, Action.errChEnv true,
       Action.supervisor false] =
      some { exampleSystem 0 [] true 1 1 true [fatalError] SupervisorPc.exit 1 [] with
        errChReady := true } := by
  refine ⟨rfl, rfl, ?_, rfl, rfl, rfl⟩
  intro pick
  cases pick <;> rfl

/-- C9, amended. At the `select` that reports an error, the goroutine can proceed
exactly when the scope is cancelled or the error channel can accept a send, and waits
otherwise; if only the scope is cancelled the send is abandoned and nothing is sent; if
only the channel can accept, the error is sent; if both hold, either may happen. -/
theorem report_select {κ : Type} (cl : Closers κ) (σ : System κ) (e : GoError) (pick : Bool)
    (hs : σ.supervisor = SupervisorPc.select e) :
    (step cl σ (Action.supervisor pick) ≠ none ↔ (σ.ctxDone = true ∨ σ.errChReady = true)) ∧
    (σ.ctxDone = true → σ.errChReady = false →
      step cl σ (Action.supervisor pick) = some { σ with supervisor := SupervisorPc.exit }) ∧
    (σ.ctxDone = false → σ.errChReady = true →
      step cl σ (Action.supervisor pick) =
        some { σ with errCh := σ.errCh ++ [e], supervisor := SupervisorPc.exit }) ∧
    (σ.ctxDone = true → σ.errChReady = true →
      step cl σ (Action.supervisor true) = some { σ with supervisor := SupervisorPc.exit } ∧
      step cl σ (Action.supervisor false) =
        some { σ with errCh := σ.errCh ++ [e], supervisor := SupervisorPc.exit }) := by
  cases hc : σ.ctxDone <;> cases hr : σ.errChReady <;> cases pick <;>
    simp [step, supervisorStep, hs, selectReport, hc, hr]

/-- Witness of C9: the scope is cancelled while the goroutine waits at the `select`. -/
theorem report_select_witness :
    step exampleClosers
      (exampleSystem 0 [] true 1 1 true [] (SupervisorPc.select fatalError) 1 [])
      (Action.supervisor false) ≠ none ↔
    ((exampleSystem 0 [] true 1 1 true [] (SupervisorPc.select fatalError) 1 []).ctxDone = true ∨
     (exampleSystem 0 [] true 1 1 true [] (SupervisorPc.select fatalError) 1 []).errChReady
       = true) :=
  (report_select exampleClosers
    (exampleSystem 0 [] true 1 1 true [] (SupervisorPc.select fatalError) 1 [])
    fatalError false rfl).1

/-! ## Close, twice -/

theorem closeParts_idem {κ : Type} (cl : Closers κ) (s : DMLSink κ)
    (h1 : ∀ x, cl.defragmenter (cl.defragmenter x) = cl.defragmenter x)
    (h2 : ∀ x, cl.encodingWorker (cl.encodingWorker x) = cl.encodingWorker x)
    (h3 : ∀ x, cl.writer (cl.writer x) = cl.writer x)
    (h4 : ∀ x, cl.statistics (cl.statistics x) = cl.statistics x) :
    closeParts cl (closeParts cl s) = closeParts cl s := by
  simp only [closeParts, Option.map_map, List.map_map]
  congr 1
  · apply List.map_congr_left
    intro x _
    exact h2 x
  · cases s.defragmenter <;> simp [h1]
  · cases s.writer <;> simp [h3]
  · cases s.statistics <;> simp [h4]

theorem supervisor_progress {κ : Type} (cl : Closers κ) (hist : List Action) (σ : System κ)
    (hJ : SupervisorInv hist σ) (hctx : σ.ctxDone = true)
    (h1 : σ.supervisor ≠ SupervisorPc.run) (h2 : σ.supervisor ≠ SupervisorPc.finished) :
    ∃ σ', step cl σ (Action.supervisor true) = some σ' ∧
      σ.supervisor.rank < σ'.supervisor.rank ∧ σ'.ctxDone = true ∧
      σ'.closing = σ.closing := by
  obtain ⟨_, _, _, _, f5, _⟩ := SupervisorInv_facts hist σ hJ
  generalize hpc : σ.supervisor = pc at h1 h2 f5
  have hs : σ.supervisor = pc := hpc
  clear hpc
  cases pc with
  | absent =>
    obtain ⟨_, hpc⟩ := hJ
    rw [hs] at hpc
    exact hpc.elim
  | run => exact absurd rfl h1
  | finished => exact absurd rfl h2
  | storeDead err =>
    exact ⟨{ σ with sink := { σ.sink with isDead := true },
                    supervisor := SupervisorPc.closeDead err },
      by simp [step, supervisorStep, hs], by simp [hs, SupervisorPc.rank], hctx, rfl⟩
  | closeDead err =>
    exact ⟨{ σ with sink := { σ.sink with dead := σ.sink.dead + 1 },
                    supervisor := SupervisorPc.checkErr err },
      by simp [step, supervisorStep, hs], by simp [hs, SupervisorPc.rank], hctx, rfl⟩
  | checkErr err =>
    cases err with
    | none =>
      exact ⟨{ σ with supervisor := SupervisorPc.exit },
        by simp [step, supervisorStep, hs], by simp [hs, SupervisorPc.rank], hctx, rfl⟩
    | some e =>
      cases hr : shouldReport (some e)
      · exact ⟨{ σ with supervisor := SupervisorPc.exit },
          by simp [step, supervisorStep, hs, hr], by simp [hs, SupervisorPc.rank], hctx, rfl⟩
      · exact ⟨{ σ with supervisor := SupervisorPc.select e },
          by simp [step, supervisorStep, hs, hr], by simp [hs, SupervisorPc.rank], hctx, rfl⟩
  | select e =>
    refine ⟨{ σ with supervisor := SupervisorPc.exit }, ?_, by simp [hs, SupervisorPc.rank],
      hctx, rfl⟩
    cases hr : σ.errChReady <;> simp [step, supervisorStep, hs, selectReport, hctx, hr]
  | exit =>
    have hwg := f5 rfl
    exact ⟨{ σ with sink := { σ.sink with wg := σ.sink.wg - 1 },
                    supervisor := SupervisorPc.finished },
      by simp [step, supervisorStep, hs, hwg], by simp [hs, SupervisorPc.rank], hctx, rfl⟩

theorem supervisor_finishes {κ : Type} (cl : Closers κ) (n : Nat) (hist : List Action)
    (σ : System κ) (hJ : SupervisorInv hist σ) (hctx : σ.ctxDone = true)
    (h1 : σ.supervisor ≠ SupervisorPc.run) (hn : 7 - σ.supervisor.rank ≤ n) :
    ∃ k σ', exec cl σ (List.replicate k (Action.supervisor true)) = some σ' ∧
      σ'.supervisor = SupervisorPc.finished ∧ σ'.closing = σ.closing ∧
      SupervisorInv (hist ++ List.replicate k (Action.supervisor true)) σ' := by
  induction n generalizing hist σ with
  | zero =>
    have hfin : σ.supervisor = SupervisorPc.finished := by
      revert hn
      cases σ.supervisor <;> simp [SupervisorPc.rank]
    exact ⟨0, σ, rfl, hfin, rfl, by simpa using hJ⟩
  | succ n ih =>
    by_cases hfin : σ.supervisor = SupervisorPc.finished
    · exact ⟨0, σ, rfl, hfin, rfl, by simpa using hJ⟩
    · obtain ⟨σ₁, hs, hr, hc, hcl⟩ := supervisor_progress cl hist σ hJ hctx h1 hfin
      have hJ₁ := SupervisorInv_step cl hist σ σ₁ _ hJ hs
      have hrun : σ₁.supervisor ≠ SupervisorPc.run := by
        intro hrun
        rw [hrun] at hr
        have : 1 ≤ σ.supervisor.rank := by
          revert h1
          obtain ⟨_, hpc⟩ := hJ
          revert hpc
          cases σ.supervisor <;> simp [SupervisorPc.rank]
        have hr' : σ.supervisor.rank < 1 := hr
        omega
      obtain ⟨k, σ', e1, e2, e3, e4⟩ := ih (hist ++ [Action.supervisor true]) σ₁ hJ₁ hc hrun
        (by omega)
      refine ⟨k + 1, σ', ?_, e2, by rw [e3, hcl], ?_⟩
      · rw [List.replicate_succ, exec_cons_some cl σ σ₁ _ _ hs]
        exact e1
      · rw [List.replicate_succ]
        simpa using e4

/-- C10. After a call of `Close` has returned, a second call completes and changes
nothing but the parts, which are closed once more: `isDead`, the dead channel, the
counter, `msgCh`, the callback log and everything else stay as they are, and the whole
state is the same when closing a part twice is the same as closing it once. And on a
sink built by `NewDMLSink` that is dead, whatever the error `run` returned, a call of
`Close` completes: after it cancels the scope the goroutine runs to its end and the
wait is over. -/
theorem Close_idempotent {κ : Type} (cl : Closers κ) (σ σ₁ : System κ) (acts : List Action)
    (h : exec cl σ (Action.closeCancel :: acts ++ [Action.closeReturn]) = some σ₁) :
    (∃ σ₂, exec cl σ₁ [Action.closeCancel, Action.closeReturn] = some σ₂ ∧
      σ₂ = { σ₁ with sink := closeParts cl σ₁.sink } ∧
      σ₂.sink.isDead = σ₁.sink.isDead ∧ σ₂.sink.dead = σ₁.sink.dead ∧
      σ₂.sink.lastSeqNum = σ₁.sink.lastSeqNum ∧ σ₂.sink.msgCh = σ₁.sink.msgCh ∧
      σ₂.callbacks = σ₁.callbacks ∧
      ((∀ x, cl.defragmenter (cl.defragmenter x) = cl.defragmenter x) →
       (∀ x, cl.encodingWorker (cl.encodingWorker x) = cl.encodingWorker x) →
       (∀ x, cl.writer (cl.writer x) = cl.writer x) →
       (∀ x, cl.statistics (cl.statistics x) = cl.statistics x) → σ₂ = σ₁)) ∧
    (∀ (d : Deps κ) (σ₀ τ : System κ) (acts₀ : List Action),
      NewDMLSink d = Except.ok σ₀ → exec cl σ₀ acts₀ = some τ → τ.sink.isDead = true →
      ∃ k τ', exec cl τ (Action.closeCancel :: List.replicate k (Action.supervisor true) ++
          [Action.closeReturn]) = some τ' ∧ τ'.sink.isDead = true) := by
  constructor
  · obtain ⟨σa, c1, c2⟩ := exec_cons_eq_some cl σ σ₁ Action.closeCancel _ h
    obtain ⟨σb, e1, e2⟩ := exec_append cl acts [Action.closeReturn] σa σ₁ c2
    obtain ⟨τ, s1, s2⟩ := exec_cons_eq_some cl σb σ₁ Action.closeReturn [] e2
    simp only [exec, Option.some.injEq] at s2
    subst s2
    simp only [step] at s1
    split at s1
    · rename_i hg
      cases s1
      simp only [step, Option.some.injEq] at c1
      have hPa : σa.sink.cancel = true → σa.ctxDone = true := by
        rw [← c1]
        intro hc
        simp only at hc
        simp [hc]
      have hfr := exec_frame cl acts σa σb e1
      have hctx : (σb.ctxDone || (closeParts cl σb.sink).cancel) = σb.ctxDone := by
        show (σb.ctxDone || σb.sink.cancel) = σb.ctxDone
        cases hc : σb.sink.cancel
        · simp
        · rw [hfr.2.1 (hPa (by rw [← hfr.2.2.1]; exact hc))]
          rfl
      refine ⟨{ σb with sink := closeParts cl (closeParts cl σb.sink),
                         closing := σb.closing - 1 }, ?_, ?_, rfl, rfl, rfl, rfl, rfl, ?_⟩
      · have hw : (closeParts cl σb.sink).wg = 0 := hg.2
        simp [exec, step, hw, hctx]
      · rfl
      · intro i1 i2 i3 i4
        rw [closeParts_idem cl σb.sink i1 i2 i3 i4]
    · exact absurd s1 (by simp)
  · intro d σ₀ τ acts₀ h0 hτ hd
    have hJ := SupervisorInv_reachable cl d σ₀ τ acts₀ h0 hτ
    obtain ⟨_, _, _, _, _, _, f7, f8⟩ := SupervisorInv_facts acts₀ τ hJ
    have hr := f7 hd
    obtain ⟨τ₁, hs⟩ : ∃ τ₁, step cl τ Action.closeCancel = some τ₁ := ⟨_, rfl⟩
    have hJ₁ := SupervisorInv_step cl acts₀ τ τ₁ _ hJ hs
    have hτ₁ : τ₁ = { τ with ctxDone := τ.ctxDone || τ.sink.cancel,
                             closing := τ.closing + 1 } := by
      simp only [step, Option.some.injEq] at hs
      exact hs.symm
    have hctx : τ₁.ctxDone = true := by rw [hτ₁]; simp [f8]
    have hpc : τ₁.supervisor = τ.supervisor := by rw [hτ₁]
    have hrun : τ₁.supervisor ≠ SupervisorPc.run := by
      rw [hpc]
      intro hrun
      rw [hrun] at hr
      simp [SupervisorPc.rank] at hr
    obtain ⟨k, τ₂, e1, e2, e3, e4⟩ := supervisor_finishes cl 7 _ τ₁ hJ₁ hctx hrun (by omega)
    obtain ⟨_, _, _, g4, _⟩ := SupervisorInv_facts _ τ₂ e4
    have hwg := g4 e2
    have hcl : 0 < τ₂.closing := by rw [e3, hτ₁]; simp
    refine ⟨k, { τ₂ with sink := closeParts cl τ₂.sink, closing := τ₂.closing - 1 }, ?_, ?_⟩
    · rw [List.cons_append, exec_cons_some cl τ τ₁ _ _ hs,
        exec_append_some cl _ [Action.closeReturn] τ₁ τ₂ e1]
      simp [exec, step, hcl, hwg]
    · have := exec_isDead cl _ τ₁ τ₂ e1 (by rw [hτ₁]; exact hd)
      simpa [closeParts] using this

/-- Witness of C10: `Close` cancels, `run` returns the cancellation, the goroutine ends
and `Close` returns; then `Close` is called again. -/
theorem Close_idempotent_witness :
    ∃ σ₂, exec exampleClosers (exampleSystem 0 [] true 1 0 true [] SupervisorPc.finished 0 [])
        [Action.closeCancel, Action.closeReturn] = some σ₂ ∧
      σ₂ = exampleSystem 0 [] true 1 0 true [] SupervisorPc.finished 0 [] :=
  match (Close_idempotent exampleClosers exampleInit
    (exampleSystem 0 [] true 1 0 true [] SupervisorPc.finished 0 [])
    [Action.runReturns (some GoError.contextCanceled), Action.supervisor true,
     Action.supervisor true, Action.supervisor true, Action.supervisor true] rfl).1 with
  | ⟨σ₂, h1, _, _, _, _, _, _, h8⟩ =>
    ⟨σ₂, h1, h8 (fun _ => rfl) (fun _ => rfl) (fun _ => rfl) (fun _ => rfl)⟩

/-! ## The parts of a new sink and the tasks of run -/

theorem runLoop_eq {κ : Type} (s : DMLSink κ) (n i : Nat)
    (h : i + n ≤ s.encodingWorkers.length) :
    runLoop s i n = some (((s.encodingWorkers.drop i).take n).map RunTask.worker) := by
  induction n generalizing i with
  | zero => simp [runLoop]
  | succ n ih =>
    have hi : i < s.encodingWorkers.length := by omega
    rw [runLoop, List.getElem?_eq_getElem hi]
    simp only [ih (i + 1) (by omega), Option.map_some']
    rw [List.drop_eq_getElem_cons hi, List.take_succ_cons, List.map_cons]

theorem step_parts {κ : Type} (cl : Closers κ) (σ σ' : System κ) (a : Action)
    (h : step cl σ a = some σ') :
    σ'.sink.encodingWorkers.length = σ.sink.encodingWorkers.length ∧
    σ'.sink.msgChCap = σ.sink.msgChCap := by
  cases a with
  | runReturns err =>
    simp only [step] at h
    split at h
    · cases h; exact ⟨rfl, rfl⟩
    · exact absurd h (by simp)
  | supervisor pick =>
    rcases supervisorStep_cases σ σ' pick h with
      ⟨err, hs, rfl⟩ | ⟨err, hs, rfl⟩ | ⟨e, hs, hne, rfl⟩ | ⟨err, hs, _, rfl⟩ |
      ⟨e, hs, _, rfl⟩ | ⟨e, hs, _, rfl⟩ | ⟨hs, hwg, rfl⟩ <;> exact ⟨rfl, rfl⟩
  | writeEvents txns =>
    simp only [step] at h
    cases h
    cases hd : σ.sink.isDead
    · simp [WriteEvents_alive σ.sink txns hd]
    · simp [WriteEvents_dead σ.sink txns hd]
  | closeCancel => simp only [step] at h; cases h; exact ⟨rfl, rfl⟩
  | closeReturn =>
    simp only [step] at h
    split at h
    · cases h; simp [closeParts]
    · exact absurd h (by simp)
  | dead => simp only [step] at h; cases h; exact ⟨rfl, rfl⟩
  | ctxCancel => simp only [step] at h; cases h; exact ⟨rfl, rfl⟩
  | errChEnv ready => simp only [step] at h; cases h; exact ⟨rfl, rfl⟩

theorem exec_parts {κ : Type} (cl : Closers κ) (acts : List Action) (σ σ' : System κ)
    (h : exec cl σ acts = some σ') :
    σ'.sink.encodingWorkers.length = σ.sink.encodingWorkers.length ∧
    σ'.sink.msgChCap = σ.sink.msgChCap := by
  induction acts generalizing σ with
  | nil =>
    simp only [exec, Option.some.injEq] at h
    subst h
    exact ⟨rfl, rfl⟩
  | cons a as ih =>
    obtain ⟨σ₁, h1, h2⟩ := exec_cons_eq_some cl σ σ' a as h
    obtain ⟨b1, b2⟩ := step_parts cl σ σ₁ a h1
    obtain ⟨c1, c2⟩ := ih σ₁ h2
    exact ⟨c1.trans b1, c2.trans b2⟩

theorem createWorkers_length {κ : Type} (d : Deps κ) :
    (createWorkers d).length = defaultEncodingConcurrency := by
  simp [createWorkers]

/-- C11. The sink that a successful `NewDMLSink` returns has an ingest channel of
capacity 1024 and 8 encoding workers; worker `i`, for `i` from 0 to 7, is built with
id `i` and the encoder of the `i`-th call of `Build`; `run` on it starts the DML writer
and then one task for each worker, in order, 9 tasks in all; and in every state the
sink reaches there are still 8 workers and the capacity is 1024, so that no index of
`run` is out of range. -/
theorem NewDMLSink_parts {κ : Type} (cl : Closers κ) (d : Deps κ) (σ₀ σ : System κ)
    (acts : List Action) (h0 : NewDMLSink d = Except.ok σ₀)
    (h : exec cl σ₀ acts = some σ) :
    σ₀.sink.msgChCap = 1024 ∧ σ₀.sink.msgCh = [] ∧
    σ₀.sink.encodingWorkers.length = 8 ∧
    (∀ i, i < 8 → σ₀.sink.encodingWorkers[i]? = some (d.newEncodingWorker i (d.build i))) ∧
    DMLSink.run σ₀.sink = some (RunTask.writer (some d.newDMLWriter) ::
      (List.range 8).map (fun i => RunTask.worker (d.newEncodingWorker i (d.build i)))) ∧
    σ.sink.msgChCap = 1024 ∧ σ.sink.encodingWorkers.length = 8 ∧
    (∀ i, i < 8 → ∃ w, σ.sink.encodingWorkers[i]? = some w) ∧
    DMLSink.run σ.sink =
      some (RunTask.writer σ.sink.writer :: σ.sink.encodingWorkers.map RunTask.worker) ∧
    (∀ ts, DMLSink.run σ.sink = some ts → ts.length = 9) := by
  have hσ₀ := NewDMLSink_ok d σ₀ h0
  have hw₀ : σ₀.sink.encodingWorkers = createWorkers d := by rw [hσ₀]
  have hlen₀ : σ₀.sink.encodingWorkers.length = 8 := by
    rw [hw₀, createWorkers_length]
    rfl
  have hcap₀ : σ₀.sink.msgChCap = 1024 := by rw [hσ₀]; rfl
  obtain ⟨p1, p2⟩ := exec_parts cl acts σ₀ σ h
  have hlen : σ.sink.encodingWorkers.length = 8 := by rw [p1, hlen₀]
  have hrun : ∀ s : DMLSink κ, s.encodingWorkers.length = 8 →
      DMLSink.run s = some (RunTask.writer s.writer :: s.encodingWorkers.map RunTask.worker) := by
    intro s hs
    have h8 : defaultEncodingConcurrency = 8 := rfl
    rw [DMLSink.run, runLoop_eq s _ 0 (by rw [h8, hs]), h8]
    simp [← hs]
  refine ⟨hcap₀, by rw [hσ₀], hlen₀, ?_, ?_, by rw [p2, hcap₀], hlen, ?_, hrun _ hlen, ?_⟩
  · intro i hi
    rw [hw₀]
    simp only [createWorkers]
    rw [List.getElem?_map, List.getElem?_range (by exact hi)]
    rfl
  · rw [hrun _ hlen₀, hw₀]
    have hwr : σ₀.sink.writer = some d.newDMLWriter := by rw [hσ₀]
    rw [hwr]
    simp [createWorkers, defaultEncodingConcurrency]
  · intro i hi
    exact ⟨_, List.getElem?_eq_getElem (by omega)⟩
  · intro ts hts
    rw [hrun _ hlen] at hts
    cases hts
    simp [hlen]

/-- Witness of C11: the sink of `NewDMLSink exampleDeps` after `run` has returned and
`Close` has cancelled. -/
theorem NewDMLSink_parts_witness :
    DMLSink.run exampleInit.sink = some (RunTask.writer (some ()) ::
      (List.range 8).map (fun i => RunTask.worker
        (exampleDeps.newEncodingWorker i (exampleDeps.build i)))) :=
  (NewDMLSink_parts exampleClosers exampleDeps exampleInit
    (exampleSystem 0 [] false 0 1 true [] (SupervisorPc.storeDead none) 1 [])
    [Action.runReturns none, Action.closeCancel] rfl rfl).2.2.2.2.1

/-! ## WriteEvents on a dead sink -/

theorem writeLoop_setDead {κ : Type} (txns : List CallbackableEvent) (r : WriteResult κ)
    (b : Bool) :
    writeLoop { r with sink := { r.sink with isDead := b } } txns =
      { writeLoop r txns with sink := { (writeLoop r txns).sink with isDead := b } } := by
  simp [writeLoop_spec]

theorem writeLoop_append {κ : Type} (xs ys : List CallbackableEvent) (r : WriteResult κ) :
    writeLoop r (xs ++ ys) = writeLoop (writeLoop r xs) ys := by
  simp [writeLoop, List.foldl_append]

/-- C13. When `isDead` is true at entry, a call of `WriteEvents` returns the error and
leaves the sink as it is, for any list of transactions: no callback is invoked, the
counter is unchanged and nothing is put on `msgCh`. The flag is tested at entry only:
the loop does not read it, so when the flag is stored during a call that found it
false, the transactions still to come are handled as if the sink were alive and nil is
returned. -/
theorem WriteEvents_dead_atomic {κ : Type} (s : DMLSink κ) (txns : List CallbackableEvent)
    (h : s.isDead = true) :
    (WriteEvents s txns).err = some (GoError.trace (GoError.new "dead dmlSink")) ∧
    (WriteEvents s txns).called = [] ∧
    (WriteEvents s txns).sink = s ∧
    (WriteEvents s txns).sink.lastSeqNum = s.lastSeqNum ∧
    (WriteEvents s txns).sink.msgCh = s.msgCh ∧
    submitted s txns = [] ∧
    (∀ (r : WriteResult κ) (b : Bool) (l : List CallbackableEvent),
      writeLoop { r with sink := { r.sink with isDead := b } } l =
        { writeLoop r l with sink := { (writeLoop r l).sink with isDead := b } }) ∧
    (∀ (s' : DMLSink κ) (before after : List CallbackableEvent), s'.isDead = false →
      WriteEventsDying s' before after =
        { WriteEvents s' (before ++ after) with
          sink := { (WriteEvents s' (before ++ after)).sink with isDead := true } }) := by
  have hw := WriteEvents_dead s txns h
  refine ⟨by rw [hw], by rw [hw], by rw [hw], by rw [hw], by rw [hw],
    submitted_dead s txns h, fun r b l => writeLoop_setDead l r b, ?_⟩
  intro s' before after hs
  simp only [WriteEventsDying, WriteEvents, hs, Bool.false_eq_true, if_false]
  rw [writeLoop_setDead, writeLoop_append]

/-- Witness of C13: a stopping and a sinking transaction offered to a dead sink. -/
theorem WriteEvents_dead_atomic_witness :
    (WriteEvents (exampleSystem 3 [] true 1 0 true [] SupervisorPc.finished 0 []).sink
      [stoppingTxn 1, sinkingTxn 2]).called = [] :=
  (WriteEvents_dead_atomic (exampleSystem 3 [] true 1 0 true [] SupervisorPc.finished 0 []).sink
    [stoppingTxn 1, sinkingTxn 2] rfl).2.1

/-! ## The defragmenter -/

theorem take_append_of_getElem? (xs : List eventFragment) (n : Nat) (f : eventFragment)
    (hn : 1 ≤ n) (hf : xs[n - 1]? = some f) : xs.take (n - 1) ++ [f] = xs.take (n + 1 - 1) := by
  have h : n + 1 - 1 = (n - 1) + 1 := by omega
  rw [h, List.take_succ, hf]
  rfl

theorem drainPending_ok (xs P : List eventFragment)
    (hP : ∀ f ∈ P, 1 ≤ f.seqNumber ∧ xs[f.seqNumber - 1]? = some f) (fuel : Nat)
    (d : defragmenter) (hinv : DrainInv xs P d) (hfuel : d.pending.length ≤ fuel) :
    DefragInv xs P (drainPending fuel d) := by
  induction fuel generalizing d with
  | zero =>
    obtain ⟨h1, h2, h3⟩ := hinv
    have hnil : d.pending = [] := List.length_eq_zero.mp (by omega)
    refine ⟨h1, h2, ?_, ?_⟩
    · intro f hf heq
      have hmem := (h3 f (le_of_eq heq.symm)).mpr hf
      rw [hnil] at hmem
      cases hmem
    · intro f hf
      have hf' : d.nextExpectedSeq < f.seqNumber := hf
      exact h3 f (by omega)
  | succ fuel ih =>
    obtain ⟨h1, h2, h3⟩ := hinv
    cases hfind : d.pending.find? (fun f => f.seqNumber == d.nextExpectedSeq) with
    | none =>
      have hd : drainPending (fuel + 1) d = d := by simp [drainPending, hfind]
      rw [hd]
      refine ⟨h1, h2, ?_, ?_⟩
      · intro f hf heq
        have hmem := (h3 f (le_of_eq heq.symm)).mpr hf
        have := List.find?_eq_none.mp hfind _ hmem
        simp [heq] at this
      · intro f hf
        exact h3 f (by omega)
    | some g =>
      have hd : drainPending (fuel + 1) d =
          drainPending fuel
            { nextExpectedSeq := d.nextExpectedSeq + 1
              pending := d.pending.filter (fun g' => g'.seqNumber != d.nextExpectedSeq)
              orderedOut := d.orderedOut ++ [g] } := by
        simp [drainPending, hfind]
      have hg1 : g.seqNumber = d.nextExpectedSeq := by
        have := List.find?_some hfind
        simpa using this
      have hgm : g ∈ d.pending := List.mem_of_find?_eq_some hfind
      have hgP : g ∈ P := (h3 g (le_of_eq hg1.symm)).mp hgm
      have hxs : xs[d.nextExpectedSeq - 1]? = some g := by
        have := (hP g hgP).2
        rwa [hg1] at this
      rw [hd]
      apply ih
      · refine ⟨?_, by simp, ?_⟩
        · show d.orderedOut ++ [g] = xs.take (d.nextExpectedSeq + 1 - 1)
          rw [h1]
          exact take_append_of_getElem? xs _ _ h2 hxs
        · intro f hf
          have hf' : d.nextExpectedSeq + 1 ≤ f.seqNumber := hf
          rw [← h3 f (by omega)]
          show f ∈ d.pending.filter (fun g' => g'.seqNumber != d.nextExpectedSeq) ↔ f ∈ d.pending
          rw [List.mem_filter]
          constructor
          · exact fun h => h.1
          · intro h
            refine ⟨h, ?_⟩
            simp
            omega
      · have : (d.pending.filter (fun g' => g'.seqNumber != d.nextExpectedSeq)).length <
            d.pending.length :=
          List.length_filter_lt_length_iff_exists.mpr ⟨g, hgm, by simp [hg1]⟩
        show (d.pending.filter (fun g' => g'.seqNumber != d.nextExpectedSeq)).length ≤ fuel
        omega

theorem defragmenter_submit_ok (xs P : List eventFragment) (d : defragmenter)
    (f : eventFragment)
    (hP : ∀ g ∈ P ++ [f], 1 ≤ g.seqNumber ∧ xs[g.seqNumber - 1]? = some g)
    (hinv : DefragInv xs P d) : DefragInv xs (P ++ [f]) (d.submit f) := by
  obtain ⟨h1, h2, h3, h4⟩ := hinv
  by_cases hk : f.seqNumber = d.nextExpectedSeq
  · have hsub : d.submit f = drainPending d.pending.length
        { d with nextExpectedSeq := d.nextExpectedSeq + 1, orderedOut := d.orderedOut ++ [f] } := by
      simp [defragmenter.submit, hk]
    have hxs : xs[d.nextExpectedSeq - 1]? = some f := by
      have := (hP f (by simp)).2
      rwa [hk] at this
    rw [hsub]
    apply drainPending_ok xs (P ++ [f]) hP
    · refine ⟨?_, by simp, ?_⟩
      · show d.orderedOut ++ [f] = xs.take (d.nextExpectedSeq + 1 - 1)
        rw [h1]
        exact take_append_of_getElem? xs _ _ h2 hxs
      · intro g hg
        have hg' : d.nextExpectedSeq + 1 ≤ g.seqNumber := hg
        show g ∈ d.pending ↔ g ∈ P ++ [f]
        rw [h4 g (by omega), List.mem_append, List.mem_singleton]
        constructor
        · exact fun h => Or.inl h
        · rintro (h | h)
          · exact h
          · rw [h] at hg'
            omega
    · exact le_refl _
  · have hsub : d.submit f = { d with pending := d.pending ++ [f] } := by
      simp [defragmenter.submit, hk]
    rw [hsub]
    refine ⟨h1, h2, ?_, ?_⟩
    · intro g hg
      rcases List.mem_append.mp hg with h | h
      · exact h3 g h
      · rw [List.mem_singleton.mp h]
        exact hk
    · intro g hg
      have hg' : d.nextExpectedSeq < g.seqNumber := hg
      show g ∈ d.pending ++ [f] ↔ g ∈ P ++ [f]
      rw [List.mem_append, List.mem_append, h4 g hg']

theorem DefragInv_foldl (xs rest P : List eventFragment) (d : defragmenter)
    (hP : ∀ g ∈ P ++ rest, 1 ≤ g.seqNumber ∧ xs[g.seqNumber - 1]? = some g)
    (hinv : DefragInv xs P d) :
    DefragInv xs (P ++ rest) (rest.foldl defragmenter.submit d) := by
  induction rest generalizing P d with
  | nil => simpa using hinv
  | cons f rest ih =>
    have h1 : P ++ f :: rest = (P ++ [f]) ++ rest := by simp
    rw [h1, List.foldl_cons]
    apply ih
    · rw [← h1]
      exact hP
    · apply defragmenter_submit_ok xs P d f _ hinv
      intro g hg
      apply hP
      rw [h1]
      exact List.mem_append_left _ hg

theorem DefragInv_new (xs : List eventFragment) : DefragInv xs [] newDefragmenter := by
  refine ⟨by simp [newDefragmenter], by simp [newDefragmenter], by simp, ?_⟩
  intro f _
  simp [newDefragmenter]

theorem defragment_eq (xs subs : List eventFragment)
    (hseq : xs.map eventFragment.seqNumber = List.range' 1 xs.length)
    (hperm : subs.Perm xs) : defragment subs = xs := by
  have hget : ∀ i (hi : i < xs.length), (xs[i]).seqNumber = i + 1 := by
    intro i hi
    have h1 : (xs.map eventFragment.seqNumber)[i]? = some (xs[i]).seqNumber := by
      rw [List.getElem?_map, List.getElem?_eq_getElem hi]
      rfl
    rw [hseq, List.getElem?_range' _ _ (by exact hi)] at h1
    simp only [Option.some.injEq] at h1
    omega
  have hP : ∀ g ∈ [] ++ subs, 1 ≤ g.seqNumber ∧ xs[g.seqNumber - 1]? = some g := by
    intro g hg
    have hgx : g ∈ xs := hperm.mem_iff.mp (by simpa using hg)
    obtain ⟨i, hi, rfl⟩ := List.getElem_of_mem hgx
    have := hget i hi
    refine ⟨by omega, ?_⟩
    have h2 : (xs[i]).seqNumber - 1 = i := by omega
    rw [h2]
    exact List.getElem?_eq_getElem hi
  obtain ⟨h1, h2, h3, _⟩ := DefragInv_foldl xs subs [] newDefragmenter hP (DefragInv_new xs)
  have hout : defragment subs = xs.take
      ((subs.foldl defragmenter.submit newDefragmenter).nextExpectedSeq - 1) := h1
  rw [hout]
  apply List.take_of_length_le
  by_contra hlt
  have hi : (subs.foldl defragmenter.submit newDefragmenter).nextExpectedSeq - 1 < xs.length := by
    omega
  have hmem : xs[(subs.foldl defragmenter.submit newDefragmenter).nextExpectedSeq - 1] ∈
      [] ++ subs := by
    simp only [List.nil_append]
    exact hperm.mem_iff.mpr (List.getElem_mem hi)
  have := h3 _ hmem
  rw [hget _ hi] at this
  omega

theorem encodeFragment_seqNumber (enc : eventFragment → List Message) (l : List eventFragment) :
    (l.map (encodeFragment enc)).map eventFragment.seqNumber = l.map eventFragment.seqNumber := by
  simp [encodeFragment, Function.comp]

theorem WriteEvents_cons_sink {κ : Type} (s : DMLSink κ) (t : CallbackableEvent)
    (rest : List CallbackableEvent) (hd : s.isDead = false) :
    (WriteEvents (WriteEvents s [t]).sink rest).sink = (WriteEvents s (t :: rest)).sink := by
  have hd' : (WriteEvents s [t]).sink.isDead = false := by
    rw [(WriteEvents_sink_fields s [t]).1, hd]
  rw [WriteEvents_alive _ _ hd', WriteEvents_alive _ _ hd, WriteEvents_alive _ _ hd]
  cases ht : isSinking t <;> simp [ht, fragmentsFrom, lastSeqAfter]

theorem exec_calls_eq_one {κ : Type} (cl : Closers κ) (ts : List CallbackableEvent)
    (σ : System κ) (hd : σ.sink.isDead = false) :
    ∃ σ', exec cl σ (ts.map (fun t => Action.writeEvents [t])) = some σ' ∧
      σ'.sink = (WriteEvents σ.sink ts).sink := by
  induction ts generalizing σ with
  | nil =>
    refine ⟨σ, rfl, ?_⟩
    rw [WriteEvents_alive _ _ hd]
    simp [fragmentsFrom, lastSeqAfter]
  | cons t rest ih =>
    have hstep : step cl σ (Action.writeEvents [t]) =
        some { σ with sink := (WriteEvents σ.sink [t]).sink,
                      callbacks := σ.callbacks ++ (WriteEvents σ.sink [t]).called } := rfl
    have hd' : (WriteEvents σ.sink [t]).sink.isDead = false := by
      rw [(WriteEvents_sink_fields σ.sink [t]).1, hd]
    obtain ⟨σ', e1, e2⟩ := ih
      { σ with sink := (WriteEvents σ.sink [t]).sink,
               callbacks := σ.callbacks ++ (WriteEvents σ.sink [t]).called } hd'
    refine ⟨σ', ?_, ?_⟩
    · rw [List.map_cons, exec_cons_some cl σ _ _ _ hstep]
      exact e1
    · rw [e2]
      exact WriteEvents_cons_sink σ.sink t rest hd

theorem two_fragments_same_seq (n : Nat) (hn : n = uint64Size) :
    ∃ σ, NewDMLSink exampleDeps = Except.ok exampleInit ∧
      exec exampleClosers exampleInit
        (((List.range (n + 1)).map sinkingTxn).map (fun t => Action.writeEvents [t])) =
        some σ ∧
      fragmentOf 1 (sinkingTxn 0) ∈ σ.sink.msgCh ∧ fragmentOf 1 (sinkingTxn n) ∈ σ.sink.msgCh := by
  obtain ⟨σ, e1, e2⟩ := exec_calls_eq_one exampleClosers ((List.range (n + 1)).map sinkingTxn)
    exampleInit rfl
  have hall : ((List.range (n + 1)).map sinkingTxn).filter isSinking =
      (List.range (n + 1)).map sinkingTxn := by
    rw [List.filter_eq_self]
    intro a ha
    obtain ⟨i, _, rfl⟩ := List.mem_map.mp ha
    rfl
  have hmsg : σ.sink.msgCh = fragmentsFrom 0 ((List.range (n + 1)).map sinkingTxn) := by
    have halive : exampleInit.sink.isDead = false := rfl
    rw [e2, WriteEvents_alive _ _ halive, hall]
    rfl
  have hpos : 0 < uint64Size := by unfold uint64Size; omega
  refine ⟨σ, rfl, e1, ?_, ?_⟩
  · apply List.getElem?_mem (n := 0)
    rw [hmsg, fragmentsFrom_getElem?, List.getElem?_map, List.getElem?_range (by omega)]
    simp [uint64Size]
  · apply List.getElem?_mem (n := n)
    rw [hmsg, fragmentsFrom_getElem?, List.getElem?_map, List.getElem?_range (by omega)]
    have h1 : (n + 1) % uint64Size = 1 := by
      rw [hn]
      unfold uint64Size
      omega
    simp [h1]

/-- Counterexample to C12 as stated: after `2^64 + 1` calls of `WriteEvents` on the sink
that `NewDMLSink` returns, each with one sinking transaction of the same table, the
first fragment and the last one are distinct and both carry sequence number 1. So
whatever the encoder and the order of completion, no output that holds every encoded
fragment is in strictly ascending order of sequence number for that table. -/
theorem no_ascending_order_after_wrap :
    ∃ σ, NewDMLSink exampleDeps = Except.ok exampleInit ∧
      exec exampleClosers exampleInit
        (((List.range (uint64Size + 1)).map sinkingTxn).map
          (fun t => Action.writeEvents [t])) = some σ ∧
      ∀ (enc : eventFragment → List Message) (out : List eventFragment),
        (∀ f ∈ σ.sink.msgCh.map (encodeFragment enc), f ∈ out) →
        ¬ (ofTable (fragmentOf 1 (sinkingTxn 0)).versionedTable out).Pairwise
          (fun a b => a.seqNumber < b.seqNumber) := by
  obtain ⟨σ, e0, e1, ha, hb⟩ := two_fragments_same_seq uint64Size rfl
  refine ⟨σ, e0, e1, ?_⟩
  intro enc out hall hpw
  have ha' : encodeFragment enc (fragmentOf 1 (sinkingTxn 0)) ∈
      ofTable (fragmentOf 1 (sinkingTxn 0)).versionedTable out := by
    unfold ofTable
    rw [List.mem_filter]
    exact ⟨hall _ (List.mem_map_of_mem _ ha), by simp [encodeFragment, fragmentOf, sinkingTxn]⟩
  have hb' : encodeFragment enc (fragmentOf 1 (sinkingTxn uint64Size)) ∈
      ofTable (fragmentOf 1 (sinkingTxn 0)).versionedTable out := by
    unfold ofTable
    rw [List.mem_filter]
    exact ⟨hall _ (List.mem_map_of_mem _ hb), by simp [encodeFragment, fragmentOf, sinkingTxn]⟩
  have hne : encodeFragment enc (fragmentOf 1 (sinkingTxn 0)) ≠
      encodeFragment enc (fragmentOf 1 (sinkingTxn uint64Size)) := by
    intro heq
    have := congrArg (fun f => f.event.Callback) heq
    simp [encodeFragment, fragmentOf, sinkingTxn, uint64Size] at this
  have hsym : (ofTable (fragmentOf 1 (sinkingTxn 0)).versionedTable out).Pairwise
      (fun a b => a.seqNumber ≠ b.seqNumber) := hpw.imp (fun h => Nat.ne_of_lt h)
  exact List.Pairwise.forall (fun _ _ h => Ne.symm h) hsym ha' hb' hne rfl

/-- C12, amended. Take any state that a sink built by `NewDMLSink` reaches with fewer than `2^64`
fragments on `msgCh`, and let the encoding workers submit these fragments, encoded, to
a new defragmenter in any order. Then the fragments sent on the ordered output channel
are the encoded fragments in ingest order; for every versioned table they are the
fragments of that table in ingest order, none missing, in strictly ascending order of
sequence number. -/
theorem defragmenter_restores_order {κ : Type} (cl : Closers κ) (d : Deps κ)
    (σ₀ σ : System κ) (acts : List Action) (enc : eventFragment → List Message)
    (subs : List eventFragment) (h0 : NewDMLSink d = Except.ok σ₀)
    (h : exec cl σ₀ acts = some σ) (hlt : σ.sink.msgCh.length < uint64Size)
    (hperm : subs.Perm (σ.sink.msgCh.map (encodeFragment enc))) :
    defragment subs = σ.sink.msgCh.map (encodeFragment enc) ∧
    (defragment subs).map eventFragment.seqNumber = List.range' 1 σ.sink.msgCh.length ∧
    ∀ tbl, ofTable tbl (defragment subs) =
        (ofTable tbl σ.sink.msgCh).map (encodeFragment enc) ∧
      (ofTable tbl (defragment subs)).Pairwise (fun a b => a.seqNumber < b.seqNumber) := by
  have hinv : SeqInv σ.sink := SeqInv_exec cl acts σ₀ σ (SeqInv_init d σ₀ h0) h
  have hseq : σ.sink.msgCh.map eventFragment.seqNumber = List.range' 1 σ.sink.msgCh.length := by
    rw [hinv.1, List.range'_eq_map_range]
    apply List.map_congr_left
    intro i hi
    have := List.mem_range.mp hi
    rw [Nat.mod_eq_of_lt (by omega)]
    omega
  have hseq' : (σ.sink.msgCh.map (encodeFragment enc)).map eventFragment.seqNumber =
      List.range' 1 (σ.sink.msgCh.map (encodeFragment enc)).length := by
    rw [encodeFragment_seqNumber, hseq, List.length_map]
  have heq := defragment_eq _ subs hseq' hperm
  have hasc : (σ.sink.msgCh.map (encodeFragment enc)).Pairwise
      (fun a b => a.seqNumber < b.seqNumber) := by
    have : ((σ.sink.msgCh.map (encodeFragment enc)).map eventFragment.seqNumber).Pairwise
        (fun a b => a < b) := by
      rw [encodeFragment_seqNumber, hseq]
      exact List.pairwise_lt_range' _ _
    exact List.pairwise_map.mp this
  refine ⟨heq, by rw [heq, encodeFragment_seqNumber, hseq], ?_⟩
  intro tbl
  rw [heq]
  refine ⟨?_, hasc.sublist (List.filter_sublist _)⟩
  simp only [ofTable, List.filter_map]
  rfl

/-- Witness of C12: four transactions alternating between two tables are ingested with
sequence numbers 1 to 4; the encoded fragments complete in the order 3, 1, 4, 2 and are
sent in the order 1, 2, 3, 4. -/
theorem defragmenter_restores_order_witness :
    defragment
      [encodeFragment exampleEncoder (fragmentOf 3 (sinkingTxn 3)),
       encodeFragment exampleEncoder (fragmentOf 1 (sinkingTxn 1)),
       encodeFragment exampleEncoder (fragmentOf 4 (otherTxn 4)),
       encodeFragment exampleEncoder (fragmentOf 2 (otherTxn 2))] =
    [encodeFragment exampleEncoder (fragmentOf 1 (sinkingTxn 1)),
     encodeFragment exampleEncoder (fragmentOf 2 (otherTxn 2)),
     encodeFragment exampleEncoder (fragmentOf 3 (sinkingTxn 3)),
     encodeFragment exampleEncoder (fragmentOf 4 (otherTxn 4))] :=
  (defragmenter_restores_order exampleClosers exampleDeps exampleInit
    (exampleSystem 4
      [fragmentOf 1 (sinkingTxn 1), fragmentOf 2 (otherTxn 2), fragmentOf 3 (sinkingTxn 3),
       fragmentOf 4 (otherTxn 4)] false 0 1 false [] SupervisorPc.run 0 [])
    [Action.writeEvents [sinkingTxn 1, otherTxn 2, sinkingTxn 3, otherTxn 4]]
    exampleEncoder
    [encodeFragment exampleEncoder (fragmentOf 3 (sinkingTxn 3)),
     encodeFragment exampleEncoder (fragmentOf 1 (sinkingTxn 1)),
     encodeFragment exampleEncoder (fragmentOf 4 (otherTxn 4)),
     encodeFragment exampleEncoder (fragmentOf 2 (otherTxn 2))]
    rfl rfl (by decide) (by decide)).1

end CloudStorage

namespace Checkpoint

open CloudStorage (GoError)

/-! ## Create -/

theorem stepErrors_append (env : DBEnv) (xs ys before : List DBOp) :
    stepErrors env before (xs ++ ys) =
      stepErrors env before xs ++ stepErrors env (before ++ xs) ys := by
  induction xs generalizing before with
  | nil => simp [stepErrors]
  | cons x xs ih =>
    cases x <;> simp [stepErrors, ih, List.append_assoc]

theorem executedStatements_append (xs ys : List DBOp) :
    executedStatements (xs ++ ys) = executedStatements xs ++ executedStatements ys := by
  induction xs with
  | nil => rfl
  | cons x xs ih => cases x <;> simp [executedStatements, ih]

theorem executedStatements_map_exec (l : List Statement) :
    executedStatements (l.map DBOp.exec) = l := by
  induction l with
  | nil => rfl
  | cons s l ih => simp [executedStatements, ih]

theorem execUntilError_spec (env : DBEnv) (stmts : List Statement) (ops : List DBOp) :
    ∃ done, done <+: stmts ∧
      (execUntilError env ops stmts).2 = ops ++ done.map DBOp.exec ∧
      (((execUntilError env ops stmts).1 = none ∧ done = stmts ∧
          stepErrors env ops (done.map DBOp.exec) = List.replicate done.length none) ∨
       (∃ e n, (execUntilError env ops stmts).1 = some e ∧
          stepErrors env ops (done.map DBOp.exec) = List.replicate n none ++ [some e])) := by
  induction stmts generalizing ops with
  | nil => exact ⟨[], List.prefix_refl _, by simp [execUntilError], Or.inl ⟨rfl, rfl, rfl⟩⟩
  | cons s rest ih =>
    cases hs : env.exec ops s with
    | some err =>
      refine ⟨[s], by simp [List.prefix_iff_eq_append], by simp [execUntilError, hs], Or.inr ⟨err, 0, ?_, ?_⟩⟩
      · simp [execUntilError, hs]
      · simp [stepErrors, hs]
    | none =>
      obtain ⟨done, hp, hops, hcase⟩ := ih (ops ++ [DBOp.exec s])
      have hrw : execUntilError env ops (s :: rest) =
          execUntilError env (ops ++ [DBOp.exec s]) rest := by
        simp [execUntilError, hs]
      refine ⟨s :: done, ?_, ?_, ?_⟩
      · obtain ⟨t, ht⟩ := hp
        exact ⟨t, by simp [← ht]⟩
      · rw [hrw, hops]
        simp
      · rw [hrw]
        rcases hcase with ⟨h1, h2, h3⟩ | ⟨e, n, h1, h2⟩
        · refine Or.inl ⟨h1, by rw [h2], ?_⟩
          simp only [List.map_cons, stepErrors, hs, h3, List.length_cons, List.replicate_succ]
        · refine Or.inr ⟨e, n + 1, h1, ?_⟩
          simp only [List.map_cons, stepErrors, hs, h2, List.replicate_succ, List.cons_append]

theorem Create_eq (k : Consts) (env : DBEnv) (cfg : JobCfg) :
    Create k env cfg =
      match env.apply cfg.TargetDB with
      | some err => { err := some err, ops := [DBOp.apply cfg.TargetDB] }
      | none =>
        { err := (execUntilError env [DBOp.apply cfg.TargetDB] (plannedStatements k cfg)).1
          ops := (execUntilError env [DBOp.apply cfg.TargetDB] (plannedStatements k cfg)).2 ++
            [DBOp.close] } := by
  unfold Create
  cases ha : env.apply cfg.TargetDB with
  | some err => rfl
  | none =>
    simp only [createMetaDatabase, createLoadCheckpointTable, createSyncCheckpointTable,
      plannedStatements]
    cases h1 : env.exec [DBOp.apply cfg.TargetDB] (Statement.createDatabase cfg.MetaSchema) with
    | some e1 => simp [execUntilError, h1]
    | none =>
      by_cases hi : cfg.TaskMode ≠ k.ModeIncrement
      · by_cases hf : cfg.TaskMode ≠ k.ModeFull
        · simp only [if_pos hi, if_pos hf, List.append_assoc, List.singleton_append,
            List.cons_append, List.nil_append, execUntilError, h1]
          cases h2 : env.exec [DBOp.apply cfg.TargetDB,
              DBOp.exec (Statement.createDatabase cfg.MetaSchema)]
              (Statement.createLoadCheckpointTable (loadTableName cfg)) with
          | some e2 => simp [h2]
          | none =>
            cases h3 : env.exec [DBOp.apply cfg.TargetDB,
                DBOp.exec (Statement.createDatabase cfg.MetaSchema),
                DBOp.exec (Statement.createLoadCheckpointTable (loadTableName cfg))]
                (Statement.createSyncCheckpointTable (syncTableName cfg)) <;> simp [h2, h3]
        · simp only [if_pos hi, if_neg hf, List.append_assoc, List.singleton_append,
            List.cons_append, List.nil_append, List.append_nil, execUntilError, h1]
          cases h2 : env.exec [DBOp.apply cfg.TargetDB,
              DBOp.exec (Statement.createDatabase cfg.MetaSchema)]
              (Statement.createLoadCheckpointTable (loadTableName cfg)) <;> simp [h2]
      · by_cases hf : cfg.TaskMode ≠ k.ModeFull
        · simp only [if_neg hi, if_pos hf, List.append_assoc, List.singleton_append,
            List.cons_append, List.nil_append, List.append_nil, execUntilError, h1]
          cases h3 : env.exec [DBOp.apply cfg.TargetDB,
              DBOp.exec (Statement.createDatabase cfg.MetaSchema)]
              (Statement.createSyncCheckpointTable (syncTableName cfg)) <;> simp [h3]
        · simp only [if_neg hi, if_neg hf, List.append_assoc, List.singleton_append,
            List.cons_append, List.nil_append, List.append_nil, execUntilError, h1]

/-- C15. `Create` first obtains the connection; if that fails it returns the error and
executes no statement. Otherwise it executes the planned statements in their order
(the meta database, then the load checkpoint table exactly when the mode is not
`ModeIncrement`, then the sync checkpoint table exactly when the mode is not
`ModeFull`) and stops at the first that fails: the statements executed are a prefix of
the planned ones, all of them when nil is returned; an error returned is the error of
the last step executed, every step before it having succeeded; and nil is returned
exactly when every step executed succeeded. -/
theorem Create_steps (k : Consts) (env : DBEnv) (cfg : JobCfg) :
    (Create k env cfg =
      match env.apply cfg.TargetDB with
      | some err => { err := some err, ops := [DBOp.apply cfg.TargetDB] }
      | none =>
        { err := (execUntilError env [DBOp.apply cfg.TargetDB] (plannedStatements k cfg)).1
          ops := (execUntilError env [DBOp.apply cfg.TargetDB] (plannedStatements k cfg)).2 ++
            [DBOp.close] }) ∧
    (∃ before, plannedStatements k cfg = Statement.createDatabase cfg.MetaSchema :: before ∧
      before = (if cfg.TaskMode ≠ k.ModeIncrement then
          [Statement.createLoadCheckpointTable (loadTableName cfg)] else []) ++
        (if cfg.TaskMode ≠ k.ModeFull then
          [Statement.createSyncCheckpointTable (syncTableName cfg)] else [])) ∧
    (Statement.createLoadCheckpointTable (loadTableName cfg) ∈ plannedStatements k cfg ↔
      cfg.TaskMode ≠ k.ModeIncrement) ∧
    (Statement.createSyncCheckpointTable (syncTableName cfg) ∈ plannedStatements k cfg ↔
      cfg.TaskMode ≠ k.ModeFull) ∧
    executedStatements (Create k env cfg).ops <+: plannedStatements k cfg ∧
    ((Create k env cfg).err = none →
      executedStatements (Create k env cfg).ops = plannedStatements k cfg) ∧
    (∀ e, (Create k env cfg).err = some e →
      ∃ n, stepErrors env [] (Create k env cfg).ops = List.replicate n none ++ [some e]) ∧
    ((Create k env cfg).err = none ↔
      ∀ e ∈ stepErrors env [] (Create k env cfg).ops, e = none) := by
  have hplan : (Statement.createLoadCheckpointTable (loadTableName cfg) ∈ plannedStatements k cfg ↔
        cfg.TaskMode ≠ k.ModeIncrement) ∧
      (Statement.createSyncCheckpointTable (syncTableName cfg) ∈ plannedStatements k cfg ↔
        cfg.TaskMode ≠ k.ModeFull) := by
    unfold plannedStatements
    by_cases hi : cfg.TaskMode ≠ k.ModeIncrement <;> by_cases hf : cfg.TaskMode ≠ k.ModeFull <;>
      simp [if_pos, if_neg, hi, hf]
  have hfacts : executedStatements (Create k env cfg).ops <+: plannedStatements k cfg ∧
      ((Create k env cfg).err = none →
        executedStatements (Create k env cfg).ops = plannedStatements k cfg) ∧
      (∀ e, (Create k env cfg).err = some e →
        ∃ n, stepErrors env [] (Create k env cfg).ops = List.replicate n none ++ [some e]) ∧
      ((Create k env cfg).err = none →
        ∀ e ∈ stepErrors env [] (Create k env cfg).ops, e = none) := by
    rw [Create_eq]
    cases ha : env.apply cfg.TargetDB with
    | some err =>
      refine ⟨by simp [executedStatements], by simp, ?_, by simp⟩
      intro e he
      simp only [Option.some.injEq] at he
      exact ⟨0, by simp [stepErrors, ha, he]⟩
    | none =>
      obtain ⟨done, hp, hops, hcase⟩ :=
        execUntilError_spec env (plannedStatements k cfg) [DBOp.apply cfg.TargetDB]
      have hlog : stepErrors env []
          ((execUntilError env [DBOp.apply cfg.TargetDB] (plannedStatements k cfg)).2 ++
            [DBOp.close]) =
          none :: stepErrors env [DBOp.apply cfg.TargetDB] (done.map DBOp.exec) := by
        rw [hops]
        have h1 : [DBOp.apply cfg.TargetDB] ++ List.map DBOp.exec done ++ [DBOp.close] =
            DBOp.apply cfg.TargetDB :: (List.map DBOp.exec done ++ [DBOp.close]) := rfl
        rw [h1, stepErrors, ha, stepErrors_append]
        simp [stepErrors]
      have hexec : executedStatements
          ((execUntilError env [DBOp.apply cfg.TargetDB] (plannedStatements k cfg)).2 ++
            [DBOp.close]) = done := by
        rw [hops]
        simp [executedStatements_append, executedStatements, executedStatements_map_exec]
      simp only [hlog, hexec]
      rcases hcase with ⟨h1, h2, h3⟩ | ⟨e, n, h1, h2⟩
      · refine ⟨hp, fun _ => h2, ?_, ?_⟩
        · intro e he
          rw [h1] at he
          cases he
        · intro _ e he
          rw [h3] at he
          simp only [List.mem_cons, List.mem_replicate] at he
          rcases he with he | ⟨_, he⟩ <;> exact he
      · refine ⟨hp, ?_, ?_, ?_⟩
        · intro hnone
          rw [h1] at hnone
          cases hnone
        · intro e' he'
          rw [h1] at he'
          cases he'
          exact ⟨n + 1, by rw [h2]; rfl⟩
        · intro hnone
          rw [h1] at hnone
          cases hnone
  refine ⟨Create_eq k env cfg, ⟨_, rfl, rfl⟩, hplan.1, hplan.2, hfacts.1, hfacts.2.1,
    hfacts.2.2.1, hfacts.2.2.2, ?_⟩
  intro hall
  cases herr : (Create k env cfg).err with
  | none => rfl
  | some e =>
    obtain ⟨n, hn⟩ := hfacts.2.2.1 e herr
    have := hall (some e) (by rw [hn]; simp)
    cases this

/-! ## IsFresh -/

/-- C14. `IsFresh` for `WorkerDMDump` returns true and nil and performs no database
operation; for another worker type, a failure to obtain the connection yields false
and the error; with a connection, for `WorkerDMLoad` the result is that of
`isLoadFresh` and for every other worker type that of `isSyncFresh`, after which the
connection is closed. `isLoadFresh` returns true and nil when the query has no row,
whether the status is `init` and nil when it has a row, and false with the error
otherwise; `isSyncFresh` returns true and nil when the query has no row, false and nil
when it has a row, and false with the error otherwise. -/
theorem IsFresh_by_workerType (k : Consts) (env : DBEnv) (workerType : Int) (task : Task) :
    (workerType = k.WorkerDMDump →
      IsFresh k env workerType task = some { fresh := true, err := none, ops := [] }) ∧
    (workerType ≠ k.WorkerDMDump → ∀ e, env.apply task.Cfg.TargetDB = some e →
      IsFresh k env workerType task =
        some { fresh := false, err := some e, ops := [DBOp.apply task.Cfg.TargetDB] }) ∧
    (workerType ≠ k.WorkerDMDump → env.apply task.Cfg.TargetDB = none →
      workerType = k.WorkerDMLoad →
      IsFresh k env workerType task =
        (isLoadFresh env [DBOp.apply task.Cfg.TargetDB] task.Cfg).map closeAfter) ∧
    (workerType ≠ k.WorkerDMDump → env.apply task.Cfg.TargetDB = none →
      workerType ≠ k.WorkerDMLoad →
      IsFresh k env workerType task =
        (isSyncFresh env [DBOp.apply task.Cfg.TargetDB] task.Cfg).map closeAfter) ∧
    (∀ (ops : List DBOp) (cfg : JobCfg) (u : UpstreamCfg) (us : List UpstreamCfg),
      cfg.Upstreams = u :: us →
      ∃ r, isLoadFresh env ops cfg = some r ∧
        r.ops = ops ++ [DBOp.queryRow (Query.loadStatus (loadTableName cfg) cfg.Name u.SourceID)] ∧
        (r.fresh = true ↔
          (env.queryRow ops (Query.loadStatus (loadTableName cfg) cfg.Name u.SourceID) =
              ScanResult.errNoRows ∨
           env.queryRow ops (Query.loadStatus (loadTableName cfg) cfg.Name u.SourceID) =
              ScanResult.row "init")) ∧
        (∀ e, r.err = some e ↔
          env.queryRow ops (Query.loadStatus (loadTableName cfg) cfg.Name u.SourceID) =
            ScanResult.failed e)) ∧
    (∀ (ops : List DBOp) (cfg : JobCfg) (u : UpstreamCfg) (us : List UpstreamCfg),
      cfg.Upstreams = u :: us →
      ∃ r, isSyncFresh env ops cfg = some r ∧
        r.ops = ops ++ [DBOp.queryRow (Query.syncGlobal (syncTableName cfg) u.SourceID)] ∧
        (r.fresh = true ↔
          env.queryRow ops (Query.syncGlobal (syncTableName cfg) u.SourceID) =
            ScanResult.errNoRows) ∧
        (∀ e, r.err = some e ↔
          env.queryRow ops (Query.syncGlobal (syncTableName cfg) u.SourceID) =
            ScanResult.failed e)) := by
  refine ⟨?_, ?_, ?_, ?_, ?_, ?_⟩
  · intro h
    simp [IsFresh, h]
  · intro h e he
    simp [IsFresh, h, he]
  · intro h ha hl
    simp only [IsFresh, if_neg h, ha, if_pos hl]
  · intro h ha hl
    simp only [IsFresh, if_neg h, ha, if_neg hl]
  · intro ops cfg u us hu
    simp only [isLoadFresh, hu]
    cases hq : env.queryRow ops (Query.loadStatus (loadTableName cfg) cfg.Name u.SourceID) with
    | row status => exact ⟨_, rfl, rfl, by simp, by simp⟩
    | errNoRows => exact ⟨_, rfl, rfl, by simp, by simp⟩
    | failed err => exact ⟨_, rfl, rfl, by simp, by simp [eq_comm]⟩
  · intro ops cfg u us hu
    simp only [isSyncFresh, hu]
    cases hq : env.queryRow ops (Query.syncGlobal (syncTableName cfg) u.SourceID) with
    | row status => exact ⟨_, rfl, rfl, by simp, by simp⟩
    | errNoRows => exact ⟨_, rfl, rfl, by simp, by simp⟩
    | failed err => exact ⟨_, rfl, rfl, by simp, by simp [eq_comm]⟩

/-- Witness of C15: in mode `all` the creation of the load checkpoint table fails, and
the sync checkpoint table is not attempted. -/
theorem Create_steps_witness :
    Create exampleConsts exampleEnv exampleCfg =
      { err := some (GoError.new "denied")
        ops := [DBOp.apply "target", DBOp.exec (Statement.createDatabase "meta"),
          DBOp.exec (Statement.createLoadCheckpointTable (loadTableName exampleCfg)),
          DBOp.close] } :=
  (Create_steps exampleConsts exampleEnv exampleCfg).1

/-- Witness of C14: a load worker on a database without rows. -/
theorem IsFresh_by_workerType_witness :
    IsFresh exampleConsts exampleEnv 2 { Cfg := exampleCfg } =
      some { fresh := true, err := none
             ops := [DBOp.apply "target",
               DBOp.queryRow (Query.loadStatus (loadTableName exampleCfg) "job" "mysql-01"),
               DBOp.close] } :=
  (IsFresh_by_workerType exampleConsts exampleEnv 2 { Cfg := exampleCfg }).2.2.1
    (by decide) rfl rfl

end Checkpoint
